import Mathlib

/-!
Verification development for the `vade-evan-cl` repository.

The Rust sources are shallowly embedded:
* text is modelled as `List Char` (a Rust `String`/`&str` is its sequence of
  characters; all wire text handled here is ASCII, so bytes and chars agree),
* bytes are modelled as `Nat` values `< 256`,
* fallible Rust functions returning `Result<_, Box<dyn Error>>` become
  `Except String _`,
* Rust operations that can panic (slice indexing out of bounds) are modelled
  with the `RustOutcome` type, which separates panics from `Err` results,
* external collaborators (the `sha2`/`sha3` hashers, the secp256k1 recovery
  primitive, the signer, serde serialization/deserialization and the `ursa`
  CL primitives) are universally quantified function parameters.
-/

namespace VadeEvanCl

/-! ## Base64url (model of `data_encoding::BASE64URL` as used in
`src/crypto/crypto_utils.rs`)

`data_encoding::BASE64URL` is the padded, canonical base64url encoding:
encoding always appends `=` padding up to a multiple of four characters, and
decoding requires the input length to be a multiple of four, accepts `=` only
as canonical trailing padding, and rejects non-zero trailing bits. -/

/-- The base64url alphabet in index order. -/
def b64Alphabet : List Char :=
  "ABCDEFGHIJKLMNOPQRSTUVWXYZabcdefghijklmnopqrstuvwxyz0123456789-_".data

/-- Character for a 6-bit value. -/
def b64Char (n : Nat) : Char := b64Alphabet.getD n 'A'

/-- Value of an alphabet character, `none` for characters outside the
alphabet (in particular for the pad character). -/
def b64Val (c : Char) : Option Nat := b64Alphabet.findIdx? (fun x => x = c)

/-- Padded base64url encoding of a byte sequence, processed in groups of
three bytes. -/
def encodeGroups : List Nat → List Char
  | b1 :: b2 :: b3 :: rest =>
      b64Char (b1 / 4) :: b64Char (b1 % 4 * 16 + b2 / 16) ::
      b64Char (b2 % 16 * 4 + b3 / 64) :: b64Char (b3 % 64) :: encodeGroups rest
  | [b1, b2] => [b64Char (b1 / 4), b64Char (b1 % 4 * 16 + b2 / 16), b64Char (b2 % 16 * 4), '=']
  | [b1] => [b64Char (b1 / 4), b64Char (b1 % 4 * 16), '=', '=']
  | [] => []

/-- Decode a full (non-final or pad-free) quantum of four characters. -/
def decode4 (a b c d : Char) : Option (List Nat) := do
  let va ← b64Val a
  let vb ← b64Val b
  let vc ← b64Val c
  let vd ← b64Val d
  pure [va * 4 + vb / 16, vb % 16 * 16 + vc / 4, vc % 4 * 64 + vd]

/-- Decode the final quantum, which may carry one or two pad characters;
canonical (zero) trailing bits are required, as `data_encoding` does by
default. -/
def decodeLast (a b c d : Char) : Option (List Nat) :=
  if d = '=' then
    if c = '=' then
      match b64Val a, b64Val b with
      | some va, some vb => if vb % 16 = 0 then some [va * 4 + vb / 16] else none
      | _, _ => none
    else
      match b64Val a, b64Val b, b64Val c with
      | some va, some vb, some vc =>
          if vc % 4 = 0 then some [va * 4 + vb / 16, vb % 16 * 16 + vc / 4] else none
      | _, _, _ => none
  else decode4 a b c d

/-- Decode a sequence of four-character quanta; a leftover of one to three
characters is a length error. -/
def decodeQuanta : List Char → Option (List Nat)
  | [] => some []
  | [_] => none
  | [_, _] => none
  | [_, _, _] => none
  | a :: b :: c :: d :: rest =>
      if rest.isEmpty then decodeLast a b c d
      else do
        let bytes ← decode4 a b c d
        let more ← decodeQuanta rest
        pure (bytes ++ more)

/-- Strict base64url decoding: the length must be a multiple of four. -/
def base64urlDecode (s : List Char) : Option (List Nat) :=
  if s.length % 4 = 0 then decodeQuanta s else none

/-- Model of Rust `trim_end_matches` for a single character. -/
def trimEnd (c : Char) (s : List Char) : List Char :=
  (s.reverse.dropWhile (fun x => x = c)).reverse

/-- Decoding of the payload (`data`) segment in `recover_address_and_data`
(crypto_utils.rs lines 194-203): strict decoding is retried with one, two and
finally three appended pad characters; the error of the last attempt is
propagated. -/
def decodeDataSegment (s : List Char) : Option (List Nat) :=
  match base64urlDecode s with
  | some decoded => some decoded
  | none =>
    match base64urlDecode (s ++ ['=']) with
    | some decoded => some decoded
    | none =>
      match base64urlDecode (s ++ ['=', '=']) with
      | some decoded => some decoded
      | none => base64urlDecode (s ++ ['=', '=', '='])

/-- Decoding of the signature segment in `recover_address_and_data`
(crypto_utils.rs lines 207-213): strict decoding is retried with one and two
appended pad characters only. -/
def decodeSigSegment (s : List Char) : Option (List Nat) :=
  match base64urlDecode s with
  | some decoded => some decoded
  | none =>
    match base64urlDecode (s ++ ['=']) with
    | some decoded => some decoded
    | none => base64urlDecode (s ++ ['=', '='])

/-! ## General helpers -/

/-- Bytes of an ASCII string (all wire text handled by the embedded code is
ASCII, where UTF-8 bytes and characters coincide). -/
def strBytes (s : String) : List Nat := s.data.map Char.toNat

/-- Lowercase hexadecimal digit. -/
def hexDigit (n : Nat) : Char := "0123456789abcdef".data.getD n '0'

/-- Model of `hex::encode`: lowercase hexadecimal of a byte sequence. -/
def hexEncode (bs : List Nat) : String :=
  ⟨bs.foldr (fun b acc => hexDigit (b / 16) :: hexDigit (b % 16) :: acc) []⟩

/-- Model of Rust `str::split('.')`. -/
def splitDots : List Char → List (List Char)
  | [] => [[]]
  | c :: rest =>
    if c = '.' then [] :: splitDots rest
    else
      match splitDots rest with
      | seg :: segs => (c :: seg) :: segs
      | [] => [[c]]

/-- Outcome of running a Rust function: it can return normally, return an
`Err`, or panic (e.g. on an out-of-bounds index). A panic is not an error
result: it unwinds and aborts the surrounding computation. -/
inductive RustOutcome (α : Type) where
  | panicked (msg : String)
  | err (msg : String)
  | ok (val : α)
deriving DecidableEq, Repr

/-! ## JSON values (model of `serde_json::Value`)

`serde_json`'s default `Map` is a `BTreeMap`, so a parsed object is a
key-sorted, duplicate-free association list; two such maps are equal exactly
when they are structurally equal, which is what `jsonFieldsEq` compares.
Numbers are modelled as integers (no claim exercises floats). -/

inductive Json where
  | null
  | bool (b : Bool)
  | num (n : Int)
  | str (s : String)
  | arr (elems : List Json)
  | obj (fields : List (String × Json))

mutual

/-- Structural equality, the model of `serde_json::Value` equality on
canonical (parser-produced) values. -/
def jsonEq : Json → Json → Bool
  | .null, .null => true
  | .bool a, .bool b => a == b
  | .num a, .num b => a == b
  | .str a, .str b => a == b
  | .arr a, .arr b => jsonListEq a b
  | .obj a, .obj b => jsonFieldsEq a b
  | _, _ => false

def jsonListEq : List Json → List Json → Bool
  | [], [] => true
  | a :: l1, b :: l2 => jsonEq a b && jsonListEq l1 l2
  | _, _ => false

def jsonFieldsEq : List (String × Json) → List (String × Json) → Bool
  | [], [] => true
  | (k1, v1) :: f1, (k2, v2) :: f2 => k1 == k2 && jsonEq v1 v2 && jsonFieldsEq f1 f2
  | _, _ => false

end

/-- Key lookup in an association-list map. -/
def lookupKey (α : Type) (key : String) : List (String × α) → Option α
  | [] => none
  | (k, v) :: rest => if k = key then some v else lookupKey α key rest

/-- Model of `BTreeMap::remove`: the removed value and the remaining map. -/
def removeField (key : String) : List (String × Json) → Option (Json × List (String × Json))
  | [] => none
  | (k, v) :: rest =>
    if k = key then some (v, rest)
    else
      match removeField key rest with
      | none => none
      | some (x, rest2) => some (x, (k, v) :: rest2)

/-- Model of `serde_json::Value` string indexing (`value["key"]`): yields
`Null` when the key is absent or the value is not an object. -/
def jsonIndex (j : Json) (key : String) : Json :=
  match j with
  | .obj fields => (lookupKey Json key fields).getD Json.null
  | _ => Json.null

/-- Model of `Value::is_null`. -/
def Json.isNull : Json → Bool
  | .null => true
  | _ => false

/-- Model of `Value::as_str`. -/
def Json.asStr : Json → Option String
  | .str s => some s
  | _ => none

/-! ## Assertion-proof engine (embedding of `src/crypto/crypto_utils.rs`)

External collaborators are taken as parameters:
* `sha256` — the `sha2::Sha256` hasher, applied to the UTF-8 bytes of a
  string (modelled by its characters, all ASCII here);
* `keccak256` — the `sha3::Keccak256` hasher;
* `recoverKey` — `secp256k1::recover` followed by `serialize()`, yielding
  the 65-byte uncompressed public key;
* `utf8Decode` — `String::from_utf8`;
* `signMessage` — the `Signer::sign_message` collaborator, returning the
  65-byte `r ‖ s ‖ v` signature and the 32-byte digest;
* `serializeJson` — serde serialization of a JSON value to UTF-8 bytes;
* `parseJson` — `serde_json::from_str::<Value>`;
* `rawDocOf` — `serde_json::from_str::<JwsData>`, which borrows the raw
  (byte-preserved) text of the `doc` field via `RawValue`. -/

/-- The literal JWS header written by `create_assertion_proof`
(crypto_utils.rs line 54). -/
def headerStr : List Char := "\x7b\"typ\":\"JWT\",\"alg\":\"ES256K-R\"\x7d".data

/-- The `AssertionProof` document constructed by `create_assertion_proof`
(fields as built at crypto_utils.rs lines 92-98). -/
structure AssertionProof where
  type : String
  created : String
  proof_purpose : String
  verification_method : String
  jws : List Char
deriving DecidableEq, Repr

/-- Embedding of `create_assertion_proof` (crypto_utils.rs lines 46-101).
The current time is passed as the `now` parameter; the payload object is
serialized by the external `serializeJson` with its keys in `BTreeMap`
order (`doc`, `iat`, `iss`). -/
def create_assertion_proof
    (serializeJson : Json → List Nat)
    (sha256 : List Char → List Nat)
    (signMessage : String → String → List Nat × List Nat)
    (document_to_sign : Json)
    (verification_method : String) (issuer : String) (private_key : String)
    (now : String) : AssertionProof :=
  let padded := encodeGroups (headerStr.map Char.toNat)
  let header_encoded := trimEnd '=' padded
  let data_json : Json :=
    Json.obj [("doc", document_to_sign), ("iat", Json.str now), ("iss", Json.str issuer)]
  let padded2 := encodeGroups (serializeJson data_json)
  let data_encoded := trimEnd '=' padded2
  let header_and_data := header_encoded ++ '.' :: data_encoded
  let hash := sha256 header_and_data
  let message := "0x" ++ hexEncode hash
  let sig_and_rec := (signMessage message private_key).1
  let sig_base64url := trimEnd '=' (encodeGroups sig_and_rec)
  { type := "EcdsaPublicKeySecp256k1"
    created := now
    proof_purpose := "assertionMethod"
    verification_method := verification_method
    jws := header_and_data ++ '.' :: sig_base64url }

/-- Embedding of `recover_address_and_data` (crypto_utils.rs lines 187-250).
`split[0]`, `split[1]`, `split[2]` panic when the JWT has fewer than three
dot-separated segments, and the signature byte accesses `[..64]` and `[64]`
panic when the decoded signature is shorter than 65 bytes.
`RecoveryId::parse` accepts recovery ids `0..=3`. -/
def recover_address_and_data
    (sha256 : List Char → List Nat)
    (keccak256 : List Nat → List Nat)
    (recoverKey : List Nat → List Nat → Nat → Except String (List Nat))
    (utf8Decode : List Nat → Except String String)
    (jwt : List Char) : RustOutcome (String × String) :=
  match splitDots jwt with
  | header :: data :: sigSeg :: _ =>
    let header_and_data := header ++ '.' :: data
    match decodeDataSegment data with
    | none => .err "invalid base64url in data segment"
    | some data_decoded =>
      match utf8Decode data_decoded with
      | .error e => .err e
      | .ok data_string =>
        match decodeSigSegment sigSeg with
        | none => .err "invalid base64url in signature segment"
        | some signature_decoded =>
          let hash := sha256 header_and_data
          if hash.length = 32 then
            if signature_decoded.length < 65 then
              .panicked "index out of bounds on signature bytes"
            else
              let v := signature_decoded.getD 64 0
              let signature_normalized := if v < 27 then v else v - 27
              if signature_normalized < 4 then
                match recoverKey hash (signature_decoded.take 64) signature_normalized with
                | .error e => .err e
                | .ok recovered_key =>
                  let keyHash := keccak256 ((recovered_key.drop 1).take 64)
                  let address := hexEncode ((keyHash.drop 12).take 20)
                  .ok (address, data_string)
              else .err "invalid recovery id"
          else .err "header_and_data hash invalid"
  | _ => .panicked "index out of bounds on jwt segments"

/-- Embedding of `check_assertion_proof` (crypto_utils.rs lines 118-175). -/
def check_assertion_proof
    (sha256 : List Char → List Nat)
    (keccak256 : List Nat → List Nat)
    (recoverKey : List Nat → List Nat → Nat → Except String (List Nat))
    (utf8Decode : List Nat → Except String String)
    (parseJson : String → Except String Json)
    (rawDocOf : String → Except String String)
    (vc_document : String) (signer_address : String) : RustOutcome Unit :=
  match parseJson vc_document with
  | .error e => .err e
  | .ok vc =>
    if (jsonIndex vc "proof").isNull then
      -- vcs without a proof are considered as valid
      .ok ()
    else
      match vc with
      | .obj vcObj =>
        match removeField "proof" vcObj with
        | none => .err "could not remove proof from vc"
        | some (vc_proof, vc_without_proof) =>
          match (jsonIndex vc_proof "jws").asStr with
          | none => .err "could not get jws from vc proof"
          | some jws =>
            match recover_address_and_data sha256 keccak256 recoverKey utf8Decode jws.data with
            | .panicked m => .panicked m
            | .err e => .err e
            | .ok (address, decoded_payload_text) =>
              match rawDocOf decoded_payload_text with
              | .error e => .err e
              | .ok docText =>
                match parseJson docText with
                | .error e => .err e
                | .ok parsed_caps1 =>
                  match parsed_caps1 with
                  | .obj parsed_caps1_map =>
                    if jsonFieldsEq vc_without_proof parsed_caps1_map then
                      if ("0x" ++ address) = signer_address then .ok ()
                      else .err "recovered and signing given address do not match"
                    else .err "recovered VC document and given VC document do not match"
                  | _ => .err "could not get jws doc as object"
      | _ => .err "could not get vc object as mutable"

/-- Embedding of the `get_document!` macro (vade_evan_cl.rs lines 60-69),
given the list returned by `vade.did_resolve`. `resolve_result[0]` is a
`Vec` index, which panics on an empty list; a `None` element yields an
error result, and a `Some` element is parsed (`parse!`, lines 53-58). -/
def get_document (α : Type) (parse : String → Except String α) (type_name : String)
    (resolve_result : List (Option String)) : RustOutcome α :=
  match resolve_result with
  | [] => .panicked "index out of bounds: the len is 0 but the index is 0"
  | first :: _ =>
    match first with
    | none => .err ("could not get " ++ type_name ++ " did document")
    | some result_str =>
      match parse result_str with
      | .ok v => .ok v
      | .error e => .err (e ++ " when parsing " ++ type_name ++ " " ++ result_str)

/-! ## Issuer role (embedding of `src/application/issuer.rs`)

The type constructors of the wrapped `ursa` CL library are opaque; a
`CTypes` bundle carries them as type parameters.  The `ursa` operations and
the crypto adapter (`crypto_issuer` module, not among the given sources) are
function parameters of each embedded operation.  `HashMap`s keyed by
property name become association lists, `HashSet<u32>` becomes
`Finset Nat`, and the clock/UUID side effects become the `nowIso`,
`nowUnix` and `newUuid` parameters. -/

structure CTypes where
  Registry : Type
  Delta : Type
  Wit : Type
  Sig : Type
  SigProof : Type
  Nonce : Type
  BlindedSecrets : Type
  BlindedProof : Type
  PubKey : Type
  KeyProof : Type
  PrivKey : Type
  RevSk : Type
  RevPub : Type
  Tails : Type

/-- Field layout as constructed throughout issuer.rs; `raw` is the supplied
string and `encoded` its canonical CL attribute encoding. -/
structure EncodedCredentialValue where
  raw : String
  encoded : String
deriving DecidableEq, Repr

structure SchemaProperty where
  type : String
  format : Option String
  items : Option (List String)
deriving DecidableEq, Repr

structure CredentialSchema where
  id : String
  type : String
  name : String
  author : String
  created_at : String
  description : String
  properties : List (String × SchemaProperty)
  required : List String
  additional_properties : Bool
  proof : Option AssertionProof
deriving DecidableEq, Repr

structure CredentialDefinition (ct : CTypes) where
  id : String
  type : String
  issuer : String
  schema : String
  created_at : String
  public_key : ct.PubKey
  public_key_correctness_proof : ct.KeyProof
  proof : Option AssertionProof

structure DeltaHistory (ct : CTypes) where
  created : Nat
  delta : ct.Delta

structure RevocationRegistryDefinition (ct : CTypes) where
  id : String
  credential_definition : String
  registry : ct.Registry
  registry_delta : ct.Delta
  delta_history : List (DeltaHistory ct)
  maximum_credential_count : Nat
  revocation_public_key : ct.RevPub
  tails : ct.Tails
  updated_at : String
  proof : Option AssertionProof

/-- Issuer-private revocation-id bookkeeping (`u32` ids as `Nat`). -/
structure RevocationIdInformation where
  definition_id : String
  next_unused_id : Nat
  used_ids : Finset Nat
deriving DecidableEq

structure CredentialRequest (ct : CTypes) where
  subject : String
  credential_definition : String
  credential_values : List (String × EncodedCredentialValue)
  blinded_credential_secrets : ct.BlindedSecrets
  blinded_credential_secrets_correctness_proof : ct.BlindedProof
  nonce : ct.Nonce

structure CredentialSubject where
  id : String
  data : List (String × EncodedCredentialValue)
deriving DecidableEq, Repr

structure CredentialSchemaReference where
  id : String
  type : String
deriving DecidableEq, Repr

structure CredentialSignature (ct : CTypes) where
  type : String
  credential_definition : String
  issuance_nonce : ct.Nonce
  signature : ct.Sig
  signature_correctness_proof : ct.SigProof
  revocation_id : Nat
  revocation_registry_definition : String

structure Credential (ct : CTypes) where
  context : List String
  id : String
  type : List String
  issuer : String
  issuance_date : String
  credential_subject : CredentialSubject
  credential_schema : CredentialSchemaReference
  proof : CredentialSignature ct

structure RevocationState (ct : CTypes) where
  credential_id : String
  revocation_id : Nat
  delta : ct.Delta
  updated : Nat
  witness : ct.Wit

/-- Modelled from the spec: `Prover::encode_values` (the prover module is
not among the given sources).  Per spec §4.4 it maps every raw value to an
`EncodedCredentialValue \x7b raw, encoded \x7d`; the canonical CL encoding of a
raw string is the abstract `encodeValue`. -/
def encode_values (encodeValue : String → String) (raw : List (String × String)) :
    List (String × EncodedCredentialValue) :=
  raw.map (fun p => (p.1, ⟨p.2, encodeValue p.2⟩))

/-- The optional-value handling loop of `issue_credential` (issuer.rs lines
300-320): walking the schema properties, a property absent from the request
fails when its name is in `required`, is recorded with raw value "null"
otherwise, and a present property's value goes into the credential-subject
data. -/
def collectValues (credential_values : List (String × EncodedCredentialValue))
    (required : List String) :
    List (String × SchemaProperty) →
      Except String (List (String × EncodedCredentialValue) × List (String × String))
  | [] => .ok ([], [])
  | (name, _) :: rest =>
    match lookupKey EncodedCredentialValue name credential_values with
    | none =>
      if required.contains name then
        .error ("Missing required schema property; " ++ name)
      else
        match collectValues credential_values required rest with
        | .error e => .error e
        | .ok (data, nulls) => .ok (data, (name, "null") :: nulls)
    | some val =>
      match collectValues credential_values required rest with
      | .error e => .error e
      | .ok (data, nulls) => .ok ((name, val) :: data, nulls)

/-- Embedding of `Issuer::issue_credential` (issuer.rs lines 282-400).

`signCred` models `CryptoIssuer::sign_credential_with_revocation`
(crypto_issuer module, not among the given sources); because the Rust code
hands it the registry definition by `&mut`, the model returns the registry
it leaves behind, which the subsequent `RevocationState.delta` serde
round-trip (lines 364-366, modelled by `registryAsDelta`) reads. -/
def issue_credential (ct : CTypes)
    (signCred : CredentialRequest ct → ct.PrivKey → ct.PubKey →
      RevocationRegistryDefinition ct → Nat → ct.RevSk →
      Except String (ct.Sig × ct.SigProof × ct.Nonce × ct.Wit × ct.Registry))
    (encodeValue : String → String)
    (registryAsDelta : ct.Registry → Except String ct.Delta)
    (issuer_did subject_did : String)
    (credential_request : CredentialRequest ct)
    (credential_definition : CredentialDefinition ct)
    (credential_private_key : ct.PrivKey)
    (credential_schema : CredentialSchema)
    (revocation_registry_definition : RevocationRegistryDefinition ct)
    (revocation_private_key : ct.RevSk)
    (revocation_info : RevocationIdInformation)
    (issuance_date : Option String)
    (nowIso : String) (nowUnix : Nat) (newUuid : String) :
    Except String (Credential ct × RevocationState ct × RevocationIdInformation) :=
  match collectValues credential_request.credential_values credential_schema.required
      credential_schema.properties with
  | .error e => .error e
  | .ok (data, null_values) =>
    let processed_credential_request : CredentialRequest ct :=
      { credential_request with
        credential_values :=
          credential_request.credential_values ++ encode_values encodeValue null_values }
    let credential_subject : CredentialSubject := ⟨subject_did, data⟩
    let schema_reference : CredentialSchemaReference := ⟨credential_schema.id, "EvanZKPSchema"⟩
    -- issuer.rs lines 337-339: `if revocation_info.next_unused_id ==
    -- revocation_registry_definition.maximum_credential_count \x7b \x7d` —
    -- the exhaustion check has an empty body, so it has no effect.
    let rev_idx := revocation_info.next_unused_id
    if rev_idx ∈ revocation_info.used_ids then
      .error "Could not use next revocation ID as it has already been used - Counter information seems to be corrupted"
    else
      let used_ids : Finset Nat := insert rev_idx revocation_info.used_ids
      let new_rev_info : RevocationIdInformation :=
        ⟨revocation_registry_definition.id, rev_idx + 1, used_ids⟩
      match signCred processed_credential_request credential_private_key
          credential_definition.public_key revocation_registry_definition rev_idx
          revocation_private_key with
      | .error e => .error e
      | .ok (signature, signature_correctness_proof, issuance_nonce, wit, registry) =>
        match registryAsDelta registry with
        | .error e => .error e
        | .ok delta =>
          let revocation_state : RevocationState ct := ⟨newUuid, rev_idx, delta, nowUnix, wit⟩
          let cred_signature : CredentialSignature ct :=
            ⟨"CLSignature2019", credential_definition.id, issuance_nonce, signature,
             signature_correctness_proof, rev_idx, revocation_registry_definition.id⟩
          let credential : Credential ct :=
            ⟨["https://www.w3.org/2018/credentials/v1"], newUuid, ["VerifiableCredential"],
             issuer_did, issuance_date.getD nowIso, credential_subject, schema_reference,
             cred_signature⟩
          .ok (credential, revocation_state, new_rev_info)

/-- Embedding of `Issuer::create_revocation_registry_definition` (issuer.rs
lines 200-262).  `createRegistry` models `CryptoIssuer::create_revocation_registry`;
`signDoc` models serde serialization followed by `create_assertion_proof`
with the issuer's key material and signer. -/
def create_revocation_registry_definition (ct : CTypes)
    (createRegistry : ct.PubKey → Nat →
      Except String (ct.Registry × ct.Delta × ct.RevPub × ct.Tails × ct.RevSk))
    (signDoc : RevocationRegistryDefinition ct → Except String AssertionProof)
    (assigned_did : String)
    (credential_definition : CredentialDefinition ct)
    (maximum_credential_count : Nat)
    (nowIso : String) (nowUnix : Nat) :
    Except String (RevocationRegistryDefinition ct × ct.RevSk × RevocationIdInformation) :=
  match createRegistry credential_definition.public_key maximum_credential_count with
  | .error e => .error e
  | .ok (registry, registry_delta, revocation_public_key, tails, rev_key_private) =>
    let delta_history : DeltaHistory ct := ⟨nowUnix, registry_delta⟩
    let rev_reg_def : RevocationRegistryDefinition ct :=
      ⟨assigned_did, credential_definition.id, registry, registry_delta, [delta_history],
       maximum_credential_count, revocation_public_key, tails, nowIso, none⟩
    let revoc_info : RevocationIdInformation :=
      ⟨assigned_did, 1, ∅⟩  -- needs to start at 1
    match signDoc rev_reg_def with
    | .error e => .error e
    | .ok proof =>
      .ok ({ rev_reg_def with proof := some proof }, rev_key_private, revoc_info)

/-- Embedding of `Issuer::revoke_credential` (issuer.rs lines 442-501).
`revokeDelta` models `CryptoIssuer::revoke_credential`, `mergeDelta` the
`ursa` `RevocationRegistryDelta::merge`, `registryFrom` the
`RevocationRegistry::from` conversion, and `signDoc` serde serialization
followed by `create_assertion_proof`. -/
def revoke_credential (ct : CTypes)
    (revokeDelta : RevocationRegistryDefinition ct → Nat → Except String ct.Delta)
    (mergeDelta : ct.Delta → ct.Delta → Except String ct.Delta)
    (registryFrom : ct.Delta → ct.Registry)
    (signDoc : RevocationRegistryDefinition ct → Except String AssertionProof)
    (issuer : String)
    (revocation_registry_definition : RevocationRegistryDefinition ct)
    (revocation_id : Nat)
    (nowIso : String) (nowUnix : Nat) :
    Except String (RevocationRegistryDefinition ct) :=
  match revokeDelta revocation_registry_definition revocation_id with
  | .error e => .error e
  | .ok delta =>
    match mergeDelta revocation_registry_definition.registry_delta delta with
    | .error e => .error ("could not create revocation registry delta; " ++ e)
    | .ok full_delta =>
      let delta_history : DeltaHistory ct := ⟨nowUnix, delta⟩
      let history_vec := revocation_registry_definition.delta_history ++ [delta_history]
      let rev_reg_def : RevocationRegistryDefinition ct :=
        ⟨revocation_registry_definition.id,
         revocation_registry_definition.credential_definition,
         registryFrom full_delta, full_delta, history_vec,
         revocation_registry_definition.maximum_credential_count,
         revocation_registry_definition.revocation_public_key,
         revocation_registry_definition.tails, nowIso, none⟩
      match signDoc rev_reg_def with
      | .error e => .error e
      | .ok proof => .ok { rev_reg_def with proof := some proof }

/-- The arguments of one `issue_credential` call, for chaining several calls
that thread a `RevocationIdInformation` through. -/
structure IssueCall (ct : CTypes) where
  issuer_did : String
  subject_did : String
  request : CredentialRequest ct
  definition : CredentialDefinition ct
  private_key : ct.PrivKey
  schema : CredentialSchema
  rrd : RevocationRegistryDefinition ct
  rev_private_key : ct.RevSk
  issuance_date : Option String
  nowIso : String
  nowUnix : Nat
  uuid : String

/-- A sequence of `issue_credential` calls, each consuming the
`RevocationIdInformation` returned by the previous one. -/
def issueChain (ct : CTypes)
    (signCred : CredentialRequest ct → ct.PrivKey → ct.PubKey →
      RevocationRegistryDefinition ct → Nat → ct.RevSk →
      Except String (ct.Sig × ct.SigProof × ct.Nonce × ct.Wit × ct.Registry))
    (encodeValue : String → String)
    (registryAsDelta : ct.Registry → Except String ct.Delta) :
    List (IssueCall ct) → RevocationIdInformation → Except String RevocationIdInformation
  | [], info => .ok info
  | call :: rest, info =>
    match issue_credential ct signCred encodeValue registryAsDelta call.issuer_did
        call.subject_did call.request call.definition call.private_key call.schema
        call.rrd call.rev_private_key info call.issuance_date call.nowIso call.nowUnix
        call.uuid with
    | .error e => .error e
    | .ok (_, _, info2) => issueChain ct signCred encodeValue registryAsDelta rest info2

/-! ### Concrete instantiation used to evaluate the issuer embedding -/

/-- All opaque CL types instantiated by `Unit`. -/
def unitCT : CTypes :=
  ⟨Unit, Unit, Unit, Unit, Unit, Unit, Unit, Unit, Unit, Unit, Unit, Unit, Unit, Unit⟩

def unitSignCred : CredentialRequest unitCT → unitCT.PrivKey → unitCT.PubKey →
    RevocationRegistryDefinition unitCT → Nat → unitCT.RevSk →
    Except String (unitCT.Sig × unitCT.SigProof × unitCT.Nonce × unitCT.Wit × unitCT.Registry) :=
  fun _ _ _ _ _ _ => .ok ((), (), (), (), ())

def unitRegistryAsDelta : unitCT.Registry → Except String unitCT.Delta :=
  fun _ => .ok ()

def sampleSchema : CredentialSchema :=
  ⟨"schema-did", "EvanVCSchema", "test", "issuer-did", "now", "", [], [], false, none⟩

def sampleRequest : CredentialRequest unitCT :=
  ⟨"subject-did", "def-did", [], (), (), ()⟩

def sampleDefinition : CredentialDefinition unitCT :=
  ⟨"def-did", "EvanZKPCredentialDefinition", "issuer-did", "schema-did", "now", (), (), none⟩

/-- A revocation registry definition with the given capacity. -/
def sampleRrd (maxCount : Nat) : RevocationRegistryDefinition unitCT :=
  ⟨"rev-did", "def-did", (), (), [], maxCount, (), (), "now", none⟩

/-- One concrete `issue_credential` call against a registry of the given
capacity. -/
def sampleIssue (maxCount : Nat) (info : RevocationIdInformation) :
    Except String (Credential unitCT × RevocationState unitCT × RevocationIdInformation) :=
  issue_credential unitCT unitSignCred (fun s => s) unitRegistryAsDelta "issuer-did"
    "subject-did" sampleRequest sampleDefinition () sampleSchema (sampleRrd maxCount) ()
    info none "now" 0 "uuid"

def sampleProp : SchemaProperty := ⟨"string", none, none⟩

/-- A schema with required property "a" and optional property "b". -/
def sampleSchemaAB : CredentialSchema :=
  ⟨"schema-did", "EvanVCSchema", "test", "issuer-did", "now", "",
   [("a", sampleProp), ("b", sampleProp)], ["a"], false, none⟩

/-- A request supplying only property "a". -/
def sampleRequestA : CredentialRequest unitCT :=
  ⟨"subject-did", "def-did", [("a", ⟨"x", "enc-x"⟩)], (), (), ()⟩

/-- The updated `RevocationIdInformation` of a successful issuance. -/
def issuedInfo (ct : CTypes)
    (r : Except String (Credential ct × RevocationState ct × RevocationIdInformation)) :
    Option RevocationIdInformation :=
  match r with
  | .ok (_, _, info) => some info
  | .error _ => none

/-- The revocation id signed into the credential of a successful issuance. -/
def issuedRevId (ct : CTypes)
    (r : Except String (Credential ct × RevocationState ct × RevocationIdInformation)) :
    Option Nat :=
  match r with
  | .ok (credential, _, _) => some credential.proof.revocation_id
  | .error _ => none

/-- The stripped base64url encoding of the literal JWS header. -/
def headerB64 : List Char := trimEnd '=' (encodeGroups (headerStr.map Char.toNat))

/-- The payload segment built by `create_assertion_proof`: the serialized
`\x7b doc, iat, iss \x7d` object, base64url-encoded and stripped of padding. -/
def payloadSegment (serializeJson : Json → List Nat) (document_to_sign : Json)
    (issuer now : String) : List Char :=
  trimEnd '=' (encodeGroups (serializeJson
    (Json.obj [("doc", document_to_sign), ("iat", Json.str now), ("iss", Json.str issuer)])))

/-- The 65-byte signature produced inside `create_assertion_proof`: the
signer is called on `"0x" ++ hex(SHA-256(header_b64 "." payload_b64))`. -/
def signedSig (serializeJson : Json → List Nat) (sha256 : List Char → List Nat)
    (signMessage : String → String → List Nat × List Nat)
    (document_to_sign : Json) (issuer : String) (private_key : String)
    (now : String) : List Nat :=
  (signMessage
    ("0x" ++ hexEncode (sha256
      (headerB64 ++ '.' :: payloadSegment serializeJson document_to_sign issuer now)))
    private_key).1

/-! ### Basic facts about the alphabet -/

theorem b64Val_b64Char {v : Nat} (h : v < 64) : b64Val (b64Char v) = some v := by
  revert h
  revert v
  decide

theorem b64Char_ne_eq {v : Nat} (h : v < 64) : b64Char v ≠ '=' := by
  revert h
  revert v
  decide

theorem b64Val_eq_none : b64Val '=' = none := by decide

theorem b64Char_mem_alphabet (v : Nat) : b64Char v ∈ b64Alphabet := by
  by_cases h : v < 64
  · exact (by decide : ∀ v, v < 64 → b64Char v ∈ b64Alphabet) v h
  · have hlen : b64Alphabet.length ≤ v := by
      have h64 : b64Alphabet.length = 64 := by decide
      omega
    unfold b64Char
    rw [List.getD_eq_default _ _ hlen]
    decide

theorem dot_not_mem_alphabet : '.' ∉ b64Alphabet := by decide

theorem eq_not_mem_alphabet : '=' ∉ b64Alphabet := by decide

/-- Every character produced by the encoder is an alphabet character or the
pad character. -/
theorem encodeGroups_chars (bs : List Nat) :
    ∀ c ∈ encodeGroups bs, c ∈ b64Alphabet ∨ c = '=' := by
  induction bs using encodeGroups.induct with
  | case1 b1 b2 b3 rest ih =>
      intro c hc
      rw [encodeGroups] at hc
      simp only [List.mem_cons] at hc
      rcases hc with h | h | h | h | h
      · exact Or.inl (h ▸ b64Char_mem_alphabet _)
      · exact Or.inl (h ▸ b64Char_mem_alphabet _)
      · exact Or.inl (h ▸ b64Char_mem_alphabet _)
      · exact Or.inl (h ▸ b64Char_mem_alphabet _)
      · exact ih c h
  | case2 b1 b2 =>
      intro c hc
      rw [encodeGroups] at hc
      simp only [List.mem_cons, List.not_mem_nil, or_false] at hc
      rcases hc with h | h | h | h
      · exact Or.inl (h ▸ b64Char_mem_alphabet _)
      · exact Or.inl (h ▸ b64Char_mem_alphabet _)
      · exact Or.inl (h ▸ b64Char_mem_alphabet _)
      · exact Or.inr h
  | case3 b1 =>
      intro c hc
      rw [encodeGroups] at hc
      simp only [List.mem_cons, List.not_mem_nil, or_false] at hc
      rcases hc with h | h | h | h
      · exact Or.inl (h ▸ b64Char_mem_alphabet _)
      · exact Or.inl (h ▸ b64Char_mem_alphabet _)
      · exact Or.inr h
      · exact Or.inr h
  | case4 =>
      intro c hc
      rw [encodeGroups] at hc
      exact absurd hc (List.not_mem_nil c)

theorem encodeGroups_no_dot (bs : List Nat) : '.' ∉ encodeGroups bs := by
  intro h
  rcases encodeGroups_chars bs _ h with h1 | h1
  · exact dot_not_mem_alphabet h1
  · exact absurd h1 (by decide)

theorem encodeGroups_length_mod (bs : List Nat) :
    (encodeGroups bs).length % 4 = 0 := by
  induction bs using encodeGroups.induct with
  | case1 b1 b2 b3 rest ih =>
      rw [encodeGroups]
      simp only [List.length_cons]
      omega
  | case2 b1 b2 => rw [encodeGroups]; simp
  | case3 b1 => rw [encodeGroups]; simp
  | case4 => rw [encodeGroups]; simp

theorem encodeGroups_eq_nil {bs : List Nat} (h : encodeGroups bs = []) : bs = [] := by
  cases bs with
  | nil => rfl
  | cons b1 t =>
    cases t with
    | nil => simp [encodeGroups] at h
    | cons b2 t2 =>
      cases t2 with
      | nil => simp [encodeGroups] at h
      | cons b3 r => simp [encodeGroups] at h

/-! ### Round trip: strict decoding inverts encoding -/

theorem decodeQuanta_encodeGroups (bs : List Nat) (h : ∀ b ∈ bs, b < 256) :
    decodeQuanta (encodeGroups bs) = some bs := by
  induction bs using encodeGroups.induct with
  | case1 b1 b2 b3 rest ih =>
    have hb1 : b1 < 256 := h b1 (by simp)
    have hb2 : b2 < 256 := h b2 (by simp)
    have hb3 : b3 < 256 := h b3 (by simp)
    have hrest : ∀ b ∈ rest, b < 256 := fun b hb => h b (by simp [hb])
    have hv1 : b1 / 4 < 64 := by omega
    have hv2 : b1 % 4 * 16 + b2 / 16 < 64 := by omega
    have hv3 : b2 % 16 * 4 + b3 / 64 < 64 := by omega
    have hv4 : b3 % 64 < 64 := by omega
    have hbytes : [b1 / 4 * 4 + (b1 % 4 * 16 + b2 / 16) / 16,
        (b1 % 4 * 16 + b2 / 16) % 16 * 16 + (b2 % 16 * 4 + b3 / 64) / 4,
        (b2 % 16 * 4 + b3 / 64) % 4 * 64 + b3 % 64] = [b1, b2, b3] := by
      have e1 : b1 / 4 * 4 + (b1 % 4 * 16 + b2 / 16) / 16 = b1 := by omega
      have e2 : (b1 % 4 * 16 + b2 / 16) % 16 * 16 + (b2 % 16 * 4 + b3 / 64) / 4 = b2 := by
        omega
      have e3 : (b2 % 16 * 4 + b3 / 64) % 4 * 64 + b3 % 64 = b3 := by omega
      rw [e1, e2, e3]
    have hd4 : decode4 (b64Char (b1 / 4)) (b64Char (b1 % 4 * 16 + b2 / 16))
        (b64Char (b2 % 16 * 4 + b3 / 64)) (b64Char (b3 % 64)) = some [b1, b2, b3] := by
      simp only [decode4, b64Val_b64Char hv1, b64Val_b64Char hv2, b64Val_b64Char hv3,
        b64Val_b64Char hv4, Option.bind_eq_bind, Option.some_bind, Option.pure_def]
      exact congrArg some hbytes
    rw [encodeGroups]
    rcases htail : encodeGroups rest with _ | ⟨c, cs⟩
    · have hrnil : rest = [] := encodeGroups_eq_nil htail
      subst hrnil
      rw [decodeQuanta]
      simp only [List.isEmpty_nil, if_true]
      rw [decodeLast, if_neg (b64Char_ne_eq hv4), hd4]
    · have hdq : decodeQuanta (c :: cs) = some rest := htail ▸ ih hrest
      rw [decodeQuanta]
      simp only [List.isEmpty_cons, Bool.false_eq_true, if_false]
      rw [hd4, hdq]
      simp
  | case2 b1 b2 =>
    have hb1 : b1 < 256 := h b1 (by simp)
    have hb2 : b2 < 256 := h b2 (by simp)
    have hv1 : b1 / 4 < 64 := by omega
    have hv2 : b1 % 4 * 16 + b2 / 16 < 64 := by omega
    have hv3 : b2 % 16 * 4 < 64 := by omega
    have hc : b2 % 16 * 4 % 4 = 0 := by omega
    rw [encodeGroups, decodeQuanta]
    simp only [List.isEmpty_nil, if_true]
    rw [decodeLast, if_pos rfl, if_neg (b64Char_ne_eq hv3)]
    simp only [b64Val_b64Char hv1, b64Val_b64Char hv2, b64Val_b64Char hv3, hc, if_pos]
    simp only [Option.some.injEq, List.cons.injEq, and_true]
    omega
  | case3 b1 =>
    have hb1 : b1 < 256 := h b1 (by simp)
    have hv1 : b1 / 4 < 64 := by omega
    have hv2 : b1 % 4 * 16 < 64 := by omega
    have hc : b1 % 4 * 16 % 16 = 0 := by omega
    rw [encodeGroups, decodeQuanta]
    simp only [List.isEmpty_nil, if_true]
    rw [decodeLast, if_pos rfl, if_pos rfl]
    simp only [b64Val_b64Char hv1, b64Val_b64Char hv2, hc, if_pos]
    simp only [Option.some.injEq, List.cons.injEq, and_true]
    omega
  | case4 => rfl

theorem base64urlDecode_encodeGroups (bs : List Nat) (h : ∀ b ∈ bs, b < 256) :
    base64urlDecode (encodeGroups bs) = some bs := by
  rw [base64urlDecode, if_pos (encodeGroups_length_mod bs)]
  exact decodeQuanta_encodeGroups bs h

/-! ### All-pad suffixes of an encoding have length at most two -/

theorem pad_drop_length (bs : List Nat) (h : ∀ b ∈ bs, b < 256) :
    ∀ n, (∀ c ∈ (encodeGroups bs).drop n, c = '=') →
      (encodeGroups bs).length - n ≤ 2 := by
  induction bs using encodeGroups.induct with
  | case1 b1 b2 b3 rest ih =>
    have hrest : ∀ b ∈ rest, b < 256 := fun b hb => h b (by simp [hb])
    have hv4 : b3 % 64 < 64 := by omega
    intro n hpad
    rw [encodeGroups] at hpad ⊢
    rcases n with _ | _ | _ | _ | m
    · exact absurd (hpad _ (by simp)) (b64Char_ne_eq hv4)
    · exact absurd (hpad _ (by simp)) (b64Char_ne_eq hv4)
    · exact absurd (hpad _ (by simp)) (b64Char_ne_eq hv4)
    · exact absurd (hpad _ (by simp)) (b64Char_ne_eq hv4)
    · have hdrop : ∀ c ∈ (encodeGroups rest).drop m, c = '=' := by
        intro c hc
        apply hpad
        simpa using hc
      have := ih hrest m hdrop
      simp only [List.length_cons]
      omega
  | case2 b1 b2 =>
    have hb1 : b1 < 256 := h b1 (by simp)
    have hb2 : b2 < 256 := h b2 (by simp)
    have hv3 : b2 % 16 * 4 < 64 := by omega
    intro n hpad
    rw [encodeGroups] at hpad ⊢
    rcases n with _ | _ | m
    · exact absurd (hpad _ (by simp)) (b64Char_ne_eq hv3)
    · exact absurd (hpad _ (by simp)) (b64Char_ne_eq hv3)
    · simp only [List.length_cons, List.length_nil]
      omega
  | case3 b1 =>
    have hb1 : b1 < 256 := h b1 (by simp)
    have hv1 : b1 / 4 < 64 := by omega
    have hv2 : b1 % 4 * 16 < 64 := by omega
    intro n hpad
    rw [encodeGroups] at hpad ⊢
    rcases n with _ | _ | m
    · exact absurd (hpad _ (by simp)) (b64Char_ne_eq hv1)
    · exact absurd (hpad _ (by simp)) (b64Char_ne_eq hv2)
    · simp only [List.length_cons, List.length_nil]
      omega
  | case4 =>
    intro n hpad
    rw [encodeGroups]
    simp

/-! ### A third appended pad character can never make a segment decode -/

theorem decodeQuanta_three_pads :
    ∀ (n : Nat) (s : List Char), s.length ≤ n →
      decodeQuanta (s ++ ['=', '=', '=']) = none := by
  intro n
  induction n with
  | zero =>
    intro s hs
    have hnil : s = [] := List.eq_nil_of_length_eq_zero (Nat.le_zero.mp hs)
    subst hnil
    rfl
  | succ m ih =>
    intro s hs
    rcases s with _ | ⟨x, s1⟩
    · rfl
    rcases s1 with _ | ⟨y, s2⟩
    · show decodeQuanta [x, '=', '=', '='] = none
      rw [decodeQuanta]
      simp only [List.isEmpty_nil, if_true]
      rw [decodeLast, if_pos rfl, if_pos rfl, b64Val_eq_none]
      cases b64Val x <;> rfl
    rcases s2 with _ | ⟨z, s3⟩
    · show decodeQuanta [x, y, '=', '=', '='] = none
      rw [decodeQuanta]
      simp only [List.isEmpty_cons, Bool.false_eq_true, if_false]
      have hd : decode4 x y '=' '=' = none := by
        simp only [decode4, b64Val_eq_none]
        cases b64Val x <;> cases b64Val y <;> rfl
      rw [hd]
      rfl
    rcases s3 with _ | ⟨w, s4⟩
    · show decodeQuanta [x, y, z, '=', '=', '='] = none
      rw [decodeQuanta]
      simp only [List.isEmpty_cons, Bool.false_eq_true, if_false]
      have hd : decode4 x y z '=' = none := by
        simp only [decode4, b64Val_eq_none]
        cases b64Val x <;> cases b64Val y <;> cases b64Val z <;> rfl
      rw [hd]
      rfl
    · have hlen : s4.length ≤ m := by
        simp only [List.length_cons] at hs
        omega
      show decodeQuanta (x :: y :: z :: w :: (s4 ++ ['=', '=', '='])) = none
      rw [decodeQuanta]
      have hne : ((s4 ++ ['=', '=', '=']).isEmpty) = false := by
        cases s4 <;> rfl
      simp only [hne, Bool.false_eq_true, if_false]
      rw [ih s4 hlen]
      cases decode4 x y z w <;> rfl

theorem base64urlDecode_three_pads (s : List Char) :
    base64urlDecode (s ++ ['=', '=', '=']) = none := by
  rw [base64urlDecode]
  by_cases hlen : (s ++ ['=', '=', '=']).length % 4 = 0
  · rw [if_pos hlen]
    exact decodeQuanta_three_pads (s.length) s (Nat.le_refl _)
  · rw [if_neg hlen]

/-- The payload-segment decoder and the signature-segment decoder agree on
every input: the extra retry with three pad characters can never succeed. -/
theorem decodeDataSegment_eq_decodeSigSegment (s : List Char) :
    decodeDataSegment s = decodeSigSegment s := by
  rw [decodeDataSegment, decodeSigSegment]
  cases base64urlDecode s with
  | some d => rfl
  | none =>
    cases base64urlDecode (s ++ ['=']) with
    | some d => rfl
    | none =>
      cases hd : base64urlDecode (s ++ ['=', '=']) with
      | some d => rfl
      | none => exact base64urlDecode_three_pads s

/-! ### Stripping up to all the pad characters still decodes -/

theorem decodeSigSegment_strip (bytes : List Nat) (h : ∀ b ∈ bytes, b < 256)
    (s p : List Char) (henc : encodeGroups bytes = s ++ p)
    (hpad : ∀ c ∈ p, c = '=') : decodeSigSegment s = some bytes := by
  have hplen : p.length ≤ 2 := by
    have hdrop : p = (encodeGroups bytes).drop s.length := by
      rw [henc, List.drop_left]
    have hlen := pad_drop_length bytes h s.length (by rw [← hdrop]; exact hpad)
    rw [henc] at hlen
    simp only [List.length_append] at hlen
    omega
  have hLmod : (encodeGroups bytes).length % 4 = 0 := encodeGroups_length_mod bytes
  have hL : (encodeGroups bytes).length = s.length + p.length := by
    rw [henc, List.length_append]
  rcases p with _ | ⟨c1, p1⟩
  · simp only [List.append_nil] at henc
    rw [decodeSigSegment, ← henc, base64urlDecode_encodeGroups bytes h]
  rcases p1 with _ | ⟨c2, p2⟩
  · -- one pad character was stripped
    have hc1 : c1 = '=' := hpad c1 (by simp)
    subst hc1
    have hs0 : base64urlDecode s = none := by
      rw [base64urlDecode, if_neg]
      simp only [List.length_cons, List.length_nil] at hL
      omega
    rw [decodeSigSegment, hs0, ← henc, base64urlDecode_encodeGroups bytes h]
  rcases p2 with _ | ⟨c3, p3⟩
  · -- two pad characters were stripped
    have hc1 : c1 = '=' := hpad c1 (by simp)
    have hc2 : c2 = '=' := hpad c2 (by simp)
    subst hc1
    subst hc2
    have hs0 : base64urlDecode s = none := by
      rw [base64urlDecode, if_neg]
      simp only [List.length_cons, List.length_nil] at hL
      omega
    have hs1 : base64urlDecode (s ++ ['=']) = none := by
      rw [base64urlDecode, if_neg]
      simp only [List.length_cons, List.length_nil] at hL
      simp only [List.length_append, List.length_cons, List.length_nil]
      omega
    have henc2 : s ++ ['=', '='] = encodeGroups bytes := by
      rw [henc]
    rw [decodeSigSegment, hs0, hs1, henc2, base64urlDecode_encodeGroups bytes h]
  · exfalso
    simp only [List.length_cons] at hplen
    omega

theorem decodeDataSegment_strip (bytes : List Nat) (h : ∀ b ∈ bytes, b < 256)
    (s p : List Char) (henc : encodeGroups bytes = s ++ p)
    (hpad : ∀ c ∈ p, c = '=') : decodeDataSegment s = some bytes := by
  rw [decodeDataSegment_eq_decodeSigSegment]
  exact decodeSigSegment_strip bytes h s p henc hpad

/-! ### Issuer lemmas -/

theorem insert_Icc_one (k : Nat) :
    insert (k + 1) (Finset.Icc 1 k) = Finset.Icc 1 (k + 1) := by
  ext x
  simp only [Finset.mem_insert, Finset.mem_Icc]
  omega

/-- A successful issuance advances the counter by one and marks exactly the
assigned id as used. -/
theorem issue_credential_info_step (ct : CTypes)
    (signCred : CredentialRequest ct → ct.PrivKey → ct.PubKey →
      RevocationRegistryDefinition ct → Nat → ct.RevSk →
      Except String (ct.Sig × ct.SigProof × ct.Nonce × ct.Wit × ct.Registry))
    (encodeValue : String → String)
    (registryAsDelta : ct.Registry → Except String ct.Delta)
    (issuer_did subject_did : String)
    (credential_request : CredentialRequest ct)
    (credential_definition : CredentialDefinition ct)
    (credential_private_key : ct.PrivKey)
    (credential_schema : CredentialSchema)
    (revocation_registry_definition : RevocationRegistryDefinition ct)
    (revocation_private_key : ct.RevSk)
    (revocation_info : RevocationIdInformation)
    (issuance_date : Option String)
    (nowIso : String) (nowUnix : Nat) (newUuid : String)
    (credential : Credential ct) (state : RevocationState ct)
    (info2 : RevocationIdInformation)
    (h : issue_credential ct signCred encodeValue registryAsDelta issuer_did subject_did
      credential_request credential_definition credential_private_key credential_schema
      revocation_registry_definition revocation_private_key revocation_info issuance_date
      nowIso nowUnix newUuid = .ok (credential, state, info2)) :
    info2.definition_id = revocation_registry_definition.id ∧
    info2.next_unused_id = revocation_info.next_unused_id + 1 ∧
    info2.used_ids = insert revocation_info.next_unused_id revocation_info.used_ids ∧
    credential.proof.revocation_id = revocation_info.next_unused_id ∧
    state.revocation_id = revocation_info.next_unused_id := by
  unfold issue_credential at h
  split at h
  · exact absurd h (by simp)
  · dsimp only at h
    split at h
    · exact absurd h (by simp)
    · split at h
      · exact absurd h (by simp)
      · split at h
        · exact absurd h (by simp)
        · simp only [Except.ok.injEq, Prod.mk.injEq] at h
          obtain ⟨hc, hs, hi⟩ := h
          subst hc
          subst hs
          subst hi
          exact ⟨rfl, rfl, rfl, rfl, rfl⟩

theorem issueChain_invariant (ct : CTypes)
    (signCred : CredentialRequest ct → ct.PrivKey → ct.PubKey →
      RevocationRegistryDefinition ct → Nat → ct.RevSk →
      Except String (ct.Sig × ct.SigProof × ct.Nonce × ct.Wit × ct.Registry))
    (encodeValue : String → String)
    (registryAsDelta : ct.Registry → Except String ct.Delta) :
    ∀ (calls : List (IssueCall ct)) (k : Nat) (info infoN : RevocationIdInformation),
      info.next_unused_id = k + 1 → info.used_ids = Finset.Icc 1 k →
      issueChain ct signCred encodeValue registryAsDelta calls info = .ok infoN →
      infoN.next_unused_id = k + calls.length + 1 ∧
      infoN.used_ids = Finset.Icc 1 (k + calls.length) := by
  intro calls
  induction calls with
  | nil =>
    intro k info infoN hnext hused hchain
    rw [issueChain] at hchain
    simp only [Except.ok.injEq] at hchain
    subst hchain
    simp only [List.length_nil, Nat.add_zero]
    exact ⟨hnext, hused⟩
  | cons call rest ih =>
    intro k info infoN hnext hused hchain
    rw [issueChain] at hchain
    split at hchain
    · exact absurd hchain (by simp)
    · rename_i cred state info2 heq
      have hstep := issue_credential_info_step ct signCred encodeValue registryAsDelta
        call.issuer_did call.subject_did call.request call.definition call.private_key
        call.schema call.rrd call.rev_private_key info call.issuance_date call.nowIso
        call.nowUnix call.uuid cred state info2 heq
      have hnext2 : info2.next_unused_id = (k + 1) + 1 := by
        rw [hstep.2.1, hnext]
      have hused2 : info2.used_ids = Finset.Icc 1 (k + 1) := by
        rw [hstep.2.2.1, hnext, hused]
        exact insert_Icc_one k
      have := ih (k + 1) info2 infoN hnext2 hused2 hchain
      simp only [List.length_cons]
      constructor
      · omega
      · have h2 := this.2
        have harith : k + 1 + rest.length = k + (rest.length + 1) := by omega
        rw [harith] at h2
        exact h2

/-- C1: with `maximum_credential_count = 1`, the first issuance yields
revocation id 1, and the second issuance on the updated
`RevocationIdInformation` does not fail at all: it succeeds and assigns
revocation id 2, because the exhaustion check in `issue_credential`
(issuer.rs lines 337-339) has an empty body.  There is no `ErrRegistryFull`
anywhere in the code. -/
theorem issue_credential_second_call_exceeds_capacity :
    issuedRevId unitCT (sampleIssue 1 ⟨"rev-did", 1, ∅⟩) = some 1 ∧
    issuedInfo unitCT (sampleIssue 1 ⟨"rev-did", 1, ∅⟩) = some ⟨"rev-did", 2, {1}⟩ ∧
    issuedRevId unitCT (sampleIssue 1 ⟨"rev-did", 2, {1}⟩) = some 2 ∧
    issuedInfo unitCT (sampleIssue 1 ⟨"rev-did", 2, {1}⟩) = some ⟨"rev-did", 3, {2, 1}⟩ := by
  exact ⟨by rfl, by rfl, by rfl, by rfl⟩

/-- C6: when `next_unused_id` is already a member of `used_ids`, and the
request passes the schema-property validation, `issue_credential` fails with
the revocation-id-reuse error (issuer.rs lines 342-344) and returns no
credential. -/
theorem issue_credential_reused_id (ct : CTypes)
    (signCred : CredentialRequest ct → ct.PrivKey → ct.PubKey →
      RevocationRegistryDefinition ct → Nat → ct.RevSk →
      Except String (ct.Sig × ct.SigProof × ct.Nonce × ct.Wit × ct.Registry))
    (encodeValue : String → String)
    (registryAsDelta : ct.Registry → Except String ct.Delta)
    (issuer_did subject_did : String)
    (credential_request : CredentialRequest ct)
    (credential_definition : CredentialDefinition ct)
    (credential_private_key : ct.PrivKey)
    (credential_schema : CredentialSchema)
    (revocation_registry_definition : RevocationRegistryDefinition ct)
    (revocation_private_key : ct.RevSk)
    (revocation_info : RevocationIdInformation)
    (issuance_date : Option String)
    (nowIso : String) (nowUnix : Nat) (newUuid : String)
    (pr : List (String × EncodedCredentialValue) × List (String × String))
    (hvals : collectValues credential_request.credential_values credential_schema.required
      credential_schema.properties = .ok pr)
    (hmem : revocation_info.next_unused_id ∈ revocation_info.used_ids) :
    issue_credential ct signCred encodeValue registryAsDelta issuer_did subject_did
      credential_request credential_definition credential_private_key credential_schema
      revocation_registry_definition revocation_private_key revocation_info issuance_date
      nowIso nowUnix newUuid =
    .error "Could not use next revocation ID as it has already been used - Counter information seems to be corrupted" := by
  unfold issue_credential
  rw [hvals]
  obtain ⟨data, nulls⟩ := pr
  simp [hmem]

theorem issue_credential_reused_id_witness :
    sampleIssue 1 ⟨"rev-did", 1, {1}⟩ =
    .error "Could not use next revocation ID as it has already been used - Counter information seems to be corrupted" :=
  issue_credential_reused_id unitCT unitSignCred (fun s => s) unitRegistryAsDelta
    "issuer-did" "subject-did" sampleRequest sampleDefinition () sampleSchema
    (sampleRrd 1) () ⟨"rev-did", 1, {1}⟩ none "now" 0 "uuid" ([], []) rfl (by decide)

/-- C4: a fresh registry starts with `next_unused_id = 1` and no used ids,
and after `N` successful `issue_credential` calls threading the returned
`RevocationIdInformation` through, `next_unused_id = N + 1` and
`used_ids = \x7b1, ..., N\x7d`. -/
theorem revocation_id_monotonic (ct : CTypes)
    (createRegistry : ct.PubKey → Nat →
      Except String (ct.Registry × ct.Delta × ct.RevPub × ct.Tails × ct.RevSk))
    (signDoc : RevocationRegistryDefinition ct → Except String AssertionProof)
    (assigned_did : String) (credential_definition : CredentialDefinition ct)
    (maximum_credential_count : Nat) (nowIso : String) (nowUnix : Nat)
    (rrd : RevocationRegistryDefinition ct) (rsk : ct.RevSk)
    (info0 : RevocationIdInformation)
    (hcreate : create_revocation_registry_definition ct createRegistry signDoc assigned_did
      credential_definition maximum_credential_count nowIso nowUnix = .ok (rrd, rsk, info0))
    (signCred : CredentialRequest ct → ct.PrivKey → ct.PubKey →
      RevocationRegistryDefinition ct → Nat → ct.RevSk →
      Except String (ct.Sig × ct.SigProof × ct.Nonce × ct.Wit × ct.Registry))
    (encodeValue : String → String)
    (registryAsDelta : ct.Registry → Except String ct.Delta)
    (calls : List (IssueCall ct)) (infoN : RevocationIdInformation)
    (hchain : issueChain ct signCred encodeValue registryAsDelta calls info0 = .ok infoN) :
    info0.next_unused_id = 1 ∧ info0.used_ids = ∅ ∧
    infoN.next_unused_id = calls.length + 1 ∧
    infoN.used_ids = Finset.Icc 1 calls.length := by
  have hinfo0 : info0 = ⟨assigned_did, 1, ∅⟩ := by
    unfold create_revocation_registry_definition at hcreate
    split at hcreate
    · exact absurd hcreate (by simp)
    · dsimp only at hcreate
      split at hcreate
      · exact absurd hcreate (by simp)
      · simp only [Except.ok.injEq, Prod.mk.injEq] at hcreate
        exact hcreate.2.2.symm
  have hnext0 : info0.next_unused_id = 0 + 1 := by rw [hinfo0]
  have hused0 : info0.used_ids = Finset.Icc 1 0 := by rw [hinfo0]; rfl
  have hinv := issueChain_invariant ct signCred encodeValue registryAsDelta calls 0 info0
    infoN hnext0 hused0 hchain
  refine ⟨by rw [hinfo0], by rw [hinfo0], ?_, ?_⟩
  · omega
  · have h2 := hinv.2
    simpa using h2

theorem revocation_id_monotonic_witness :
    (⟨"rev-did", 1, ∅⟩ : RevocationIdInformation).next_unused_id = 1 ∧
    (⟨"rev-did", 1, ∅⟩ : RevocationIdInformation).used_ids = ∅ ∧
    (⟨"rev-did", 3, {2, 1}⟩ : RevocationIdInformation).next_unused_id = 2 + 1 ∧
    (⟨"rev-did", 3, {2, 1}⟩ : RevocationIdInformation).used_ids = Finset.Icc 1 2 :=
  revocation_id_monotonic unitCT (fun _ _ => .ok ((), (), (), (), ()))
    (fun _ => .ok ⟨"t", "c", "p", "v", []⟩) "rev-did" sampleDefinition 1 "now" 0
    ⟨"rev-did", "def-did", (), (), [⟨0, ()⟩], 1, (), (), "now",
      some ⟨"t", "c", "p", "v", []⟩⟩ () ⟨"rev-did", 1, ∅⟩ rfl
    unitSignCred (fun s => s) unitRegistryAsDelta
    [⟨"issuer-did", "subject-did", sampleRequest, sampleDefinition, (), sampleSchema,
      sampleRrd 100, (), none, "now", 0, "uuid"⟩,
     ⟨"issuer-did", "subject-did", sampleRequest, sampleDefinition, (), sampleSchema,
      sampleRrd 100, (), none, "now", 0, "uuid"⟩] ⟨"rev-did", 3, {2, 1}⟩ (by rfl)

theorem lookupKey_append (α : Type) (key : String) (l1 l2 : List (String × α)) :
    lookupKey α key (l1 ++ l2) =
      match lookupKey α key l1 with
      | some v => some v
      | none => lookupKey α key l2 := by
  induction l1 with
  | nil => rfl
  | cons p rest ih =>
    obtain ⟨k, v⟩ := p
    by_cases hk : k = key
    · simp [lookupKey, hk]
    · simp only [List.cons_append, lookupKey, if_neg hk]
      exact ih

theorem lookupKey_encode_values (encodeValue : String → String) (key : String)
    (raw : List (String × String)) :
    lookupKey EncodedCredentialValue key (encode_values encodeValue raw) =
      (lookupKey String key raw).map (fun r => ⟨r, encodeValue r⟩) := by
  induction raw with
  | nil => rfl
  | cons p rest ih =>
    obtain ⟨k, v⟩ := p
    by_cases hk : k = key
    · simp [encode_values, lookupKey, hk]
    · simp only [encode_values, List.map_cons, lookupKey, if_neg hk]
      exact ih

theorem collectValues_error_form (vals : List (String × EncodedCredentialValue))
    (required : List String) :
    ∀ (props : List (String × SchemaProperty)) (e : String),
      collectValues vals required props = .error e →
      ∃ name prop, (name, prop) ∈ props ∧
        lookupKey EncodedCredentialValue name vals = none ∧
        name ∈ required ∧ e = "Missing required schema property; " ++ name := by
  intro props
  induction props with
  | nil =>
    intro e h
    exact absurd h (by simp [collectValues])
  | cons p rest ih =>
    obtain ⟨name0, prop0⟩ := p
    intro e h
    rw [collectValues] at h
    cases hl : lookupKey EncodedCredentialValue name0 vals with
    | none =>
      rw [hl] at h
      by_cases hreq : required.contains name0 = true
      · rw [if_pos hreq] at h
        simp only [Except.error.injEq] at h
        exact ⟨name0, prop0, by simp, hl, by simpa using hreq, h.symm⟩
      · rw [if_neg hreq] at h
        cases hc : collectValues vals required rest with
        | error e2 =>
          rw [hc] at h
          simp only [Except.error.injEq] at h
          obtain ⟨name, prop, hmem, hlook, hr, he⟩ := ih e2 hc
          exact ⟨name, prop, by simp [hmem], hlook, hr, by rw [← h, he]⟩
        | ok pr =>
          obtain ⟨d, n⟩ := pr
          rw [hc] at h
          exact absurd h (by simp)
    | some v =>
      rw [hl] at h
      cases hc : collectValues vals required rest with
      | error e2 =>
        rw [hc] at h
        simp only [Except.error.injEq] at h
        obtain ⟨name, prop, hmem, hlook, hr, he⟩ := ih e2 hc
        exact ⟨name, prop, by simp [hmem], hlook, hr, by rw [← h, he]⟩
      | ok pr =>
        obtain ⟨d, n⟩ := pr
        rw [hc] at h
        exact absurd h (by simp)

theorem collectValues_error_of_missing (vals : List (String × EncodedCredentialValue))
    (required : List String) :
    ∀ (props : List (String × SchemaProperty)) (name : String) (prop : SchemaProperty),
      (name, prop) ∈ props →
      lookupKey EncodedCredentialValue name vals = none →
      name ∈ required →
      ∃ e, collectValues vals required props = .error e := by
  intro props
  induction props with
  | nil =>
    intro name prop hmem
    exact absurd hmem (by simp)
  | cons p rest ih =>
    obtain ⟨name0, prop0⟩ := p
    intro name prop hmem hlook hreq
    rw [collectValues]
    cases hl : lookupKey EncodedCredentialValue name0 vals with
    | none =>
      by_cases hr : required.contains name0 = true
      · exact ⟨_, by rw [if_pos hr]⟩
      · rw [if_neg hr]
        have hrest : (name, prop) ∈ rest := by
          rcases List.mem_cons.mp hmem with heq | hin
          · exfalso
            have hn : name = name0 := by
              have := congrArg Prod.fst heq
              simpa using this
            apply hr
            rw [← hn]
            simpa using hreq
          · exact hin
        obtain ⟨e, hc⟩ := ih name prop hrest hlook hreq
        rw [hc]
        exact ⟨e, rfl⟩
    | some v =>
      have hrest : (name, prop) ∈ rest := by
        rcases List.mem_cons.mp hmem with heq | hin
        · exfalso
          have hn : name = name0 := by
            have := congrArg Prod.fst heq
            simpa using this
          rw [← hn] at hl
          rw [hlook] at hl
          exact Option.noConfusion hl
        · exact hin
      obtain ⟨e, hc⟩ := ih name prop hrest hlook hreq
      rw [hc]
      exact ⟨e, rfl⟩

theorem collectValues_nulls (vals : List (String × EncodedCredentialValue))
    (required : List String) :
    ∀ (props : List (String × SchemaProperty))
      (data : List (String × EncodedCredentialValue)) (nulls : List (String × String)),
      collectValues vals required props = .ok (data, nulls) →
      ∀ name prop, (name, prop) ∈ props →
        lookupKey EncodedCredentialValue name vals = none →
        lookupKey String name nulls = some "null" := by
  intro props
  induction props with
  | nil =>
    intro data nulls h name prop hmem
    exact absurd hmem (by simp)
  | cons p rest ih =>
    obtain ⟨name0, prop0⟩ := p
    intro data nulls h name prop hmem hlook
    rw [collectValues] at h
    cases hl : lookupKey EncodedCredentialValue name0 vals with
    | none =>
      rw [hl] at h
      by_cases hr : required.contains name0 = true
      · rw [if_pos hr] at h
        exact absurd h (by simp)
      · rw [if_neg hr] at h
        cases hc : collectValues vals required rest with
        | error e2 =>
          rw [hc] at h
          exact absurd h (by simp)
        | ok pr =>
          obtain ⟨d2, n2⟩ := pr
          rw [hc] at h
          simp only [Except.ok.injEq, Prod.mk.injEq] at h
          obtain ⟨hd, hn⟩ := h
          subst hn
          by_cases hname : name0 = name
          · rw [lookupKey, if_pos hname]
          · rw [lookupKey, if_neg hname]
            have hrest : (name, prop) ∈ rest := by
              rcases List.mem_cons.mp hmem with heq | hin
              · exfalso
                apply hname
                have := congrArg Prod.fst heq
                simpa using this.symm
              · exact hin
            exact ih d2 n2 hc name prop hrest hlook
    | some v =>
      rw [hl] at h
      cases hc : collectValues vals required rest with
      | error e2 =>
        rw [hc] at h
        exact absurd h (by simp)
      | ok pr =>
        obtain ⟨d2, n2⟩ := pr
        rw [hc] at h
        simp only [Except.ok.injEq, Prod.mk.injEq] at h
        obtain ⟨hd, hn⟩ := h
        subst hn
        have hrest : (name, prop) ∈ rest := by
          rcases List.mem_cons.mp hmem with heq | hin
          · exfalso
            have hn0 : name = name0 := by
              have := congrArg Prod.fst heq
              simpa using this
            rw [← hn0] at hl
            rw [hlook] at hl
            exact Option.noConfusion hl
          · exact hin
        exact ih d2 n2 hc name prop hrest hlook

/-- C5: a schema property absent from the request makes `issue_credential`
fail with the missing-required error exactly when the property is required;
otherwise the operation succeeds and the processed request's
`credential_values` (handed to the CL signing) are extended with the
encoding of the raw string "null" for every absent optional property. -/
theorem issue_credential_optional_values (ct : CTypes)
    (signCred : CredentialRequest ct → ct.PrivKey → ct.PubKey →
      RevocationRegistryDefinition ct → Nat → ct.RevSk →
      Except String (ct.Sig × ct.SigProof × ct.Nonce × ct.Wit × ct.Registry))
    (encodeValue : String → String)
    (registryAsDelta : ct.Registry → Except String ct.Delta)
    (issuer_did subject_did : String)
    (credential_request : CredentialRequest ct)
    (credential_definition : CredentialDefinition ct)
    (credential_private_key : ct.PrivKey)
    (credential_schema : CredentialSchema)
    (revocation_registry_definition : RevocationRegistryDefinition ct)
    (revocation_private_key : ct.RevSk)
    (revocation_info : RevocationIdInformation)
    (issuance_date : Option String)
    (nowIso : String) (nowUnix : Nat) (newUuid : String)
    (hfresh : revocation_info.next_unused_id ∉ revocation_info.used_ids)
    (hsign : ∀ req pk pub rrd idx rsk, ∃ out, signCred req pk pub rrd idx rsk = .ok out)
    (hdelta : ∀ reg, ∃ d, registryAsDelta reg = .ok d) :
    ((∃ name, issue_credential ct signCred encodeValue registryAsDelta issuer_did subject_did
        credential_request credential_definition credential_private_key credential_schema
        revocation_registry_definition revocation_private_key revocation_info issuance_date
        nowIso nowUnix newUuid = .error ("Missing required schema property; " ++ name) ∧
        (∃ prop, (name, prop) ∈ credential_schema.properties) ∧
        lookupKey EncodedCredentialValue name credential_request.credential_values = none ∧
        name ∈ credential_schema.required) ∨
      (∃ out, issue_credential ct signCred encodeValue registryAsDelta issuer_did subject_did
        credential_request credential_definition credential_private_key credential_schema
        revocation_registry_definition revocation_private_key revocation_info issuance_date
        nowIso nowUnix newUuid = .ok out)) ∧
    ((∃ name prop, (name, prop) ∈ credential_schema.properties ∧
        lookupKey EncodedCredentialValue name credential_request.credential_values = none ∧
        name ∈ credential_schema.required) →
      ∀ out, issue_credential ct signCred encodeValue registryAsDelta issuer_did subject_did
        credential_request credential_definition credential_private_key credential_schema
        revocation_registry_definition revocation_private_key revocation_info issuance_date
        nowIso nowUnix newUuid ≠ .ok out) ∧
    (∀ data nulls,
      collectValues credential_request.credential_values credential_schema.required
        credential_schema.properties = .ok (data, nulls) →
      ∀ name prop, (name, prop) ∈ credential_schema.properties →
        lookupKey EncodedCredentialValue name credential_request.credential_values = none →
        lookupKey EncodedCredentialValue name
          (credential_request.credential_values ++ encode_values encodeValue nulls) =
          some ⟨"null", encodeValue "null"⟩) := by
  refine ⟨?_, ?_, ?_⟩
  · cases hcv : collectValues credential_request.credential_values credential_schema.required
        credential_schema.properties with
    | error e =>
      obtain ⟨name, prop, hmem, hlook, hreq, he⟩ :=
        collectValues_error_form credential_request.credential_values
          credential_schema.required credential_schema.properties e hcv
      left
      refine ⟨name, ?_, ⟨prop, hmem⟩, hlook, hreq⟩
      unfold issue_credential
      rw [hcv, he]
    | ok pr =>
      obtain ⟨data, nulls⟩ := pr
      right
      obtain ⟨⟨s1, s2, s3, s4, reg⟩, hout⟩ := hsign
        { credential_request with
          credential_values :=
            credential_request.credential_values ++ encode_values encodeValue nulls }
        credential_private_key credential_definition.public_key
        revocation_registry_definition revocation_info.next_unused_id revocation_private_key
      obtain ⟨d, hd⟩ := hdelta reg
      unfold issue_credential
      rw [hcv]
      dsimp only
      rw [if_neg hfresh, hout]
      dsimp only
      rw [hd]
      exact ⟨_, rfl⟩
  · rintro ⟨name, prop, hmem, hlook, hreq⟩ out hok
    obtain ⟨e, hc⟩ := collectValues_error_of_missing credential_request.credential_values
      credential_schema.required credential_schema.properties name prop hmem hlook hreq
    unfold issue_credential at hok
    rw [hc] at hok
    exact Except.noConfusion hok
  · intro data nulls hcv name prop hmem hlook
    have hnull : lookupKey String name nulls = some "null" :=
      collectValues_nulls credential_request.credential_values credential_schema.required
        credential_schema.properties data nulls hcv name prop hmem hlook
    rw [lookupKey_append, hlook, lookupKey_encode_values, hnull]
    rfl

theorem issue_credential_optional_values_witness :
    lookupKey EncodedCredentialValue "b"
      ([("a", (⟨"x", "enc-x"⟩ : EncodedCredentialValue))] ++
        encode_values (fun s => s) [("b", "null")]) = some ⟨"null", "null"⟩ :=
  (issue_credential_optional_values unitCT unitSignCred (fun s => s) unitRegistryAsDelta
    "issuer-did" "subject-did" sampleRequestA sampleDefinition () sampleSchemaAB
    (sampleRrd 100) () ⟨"rev-did", 1, ∅⟩ none "now" 0 "uuid" (by decide)
    (fun _ _ _ _ _ _ => ⟨((), (), (), (), ()), rfl⟩)
    (fun _ => ⟨(), rfl⟩)).2.2
    [("a", ⟨"x", "enc-x"⟩)] [("b", "null")] rfl "b" sampleProp (by decide) rfl

/-- C9: a successful `revoke_credential` returns a definition whose
`registry_delta` is the previous delta merged with the per-revocation delta,
whose `registry` is recomputed from that merged delta, whose `delta_history`
has one new entry `\x7bcreated = now, delta\x7d` appended at the end, which
carries a fresh proof, and whose remaining fields are taken unchanged from
the input definition; the input itself (an immutable borrow in the source)
is not modified. -/
theorem revoke_credential_updates (ct : CTypes)
    (revokeDelta : RevocationRegistryDefinition ct → Nat → Except String ct.Delta)
    (mergeDelta : ct.Delta → ct.Delta → Except String ct.Delta)
    (registryFrom : ct.Delta → ct.Registry)
    (signDoc : RevocationRegistryDefinition ct → Except String AssertionProof)
    (issuer : String)
    (revocation_registry_definition : RevocationRegistryDefinition ct)
    (revocation_id : Nat) (nowIso : String) (nowUnix : Nat)
    (delta full_delta : ct.Delta) (pf : AssertionProof)
    (hdelta : revokeDelta revocation_registry_definition revocation_id = .ok delta)
    (hmerge : mergeDelta revocation_registry_definition.registry_delta delta = .ok full_delta)
    (hsign : signDoc
      ⟨revocation_registry_definition.id,
       revocation_registry_definition.credential_definition,
       registryFrom full_delta, full_delta,
       revocation_registry_definition.delta_history ++ [⟨nowUnix, delta⟩],
       revocation_registry_definition.maximum_credential_count,
       revocation_registry_definition.revocation_public_key,
       revocation_registry_definition.tails, nowIso, none⟩ = .ok pf) :
    revoke_credential ct revokeDelta mergeDelta registryFrom signDoc issuer
      revocation_registry_definition revocation_id nowIso nowUnix =
    .ok ⟨revocation_registry_definition.id,
         revocation_registry_definition.credential_definition,
         registryFrom full_delta, full_delta,
         revocation_registry_definition.delta_history ++ [⟨nowUnix, delta⟩],
         revocation_registry_definition.maximum_credential_count,
         revocation_registry_definition.revocation_public_key,
         revocation_registry_definition.tails, nowIso, some pf⟩ := by
  unfold revoke_credential
  rw [hdelta]
  dsimp only
  rw [hmerge]
  dsimp only
  rw [hsign]

theorem revoke_credential_updates_witness :
    revoke_credential unitCT (fun _ _ => .ok ()) (fun _ _ => .ok ()) (fun _ => ())
      (fun _ => .ok ⟨"t", "c", "p", "v", []⟩) "issuer-did" (sampleRrd 100) 1 "later" 42 =
    .ok ⟨"rev-did", "def-did", (), (), [] ++ [⟨42, ()⟩], 100, (), (), "later",
      some ⟨"t", "c", "p", "v", []⟩⟩ :=
  revoke_credential_updates unitCT (fun _ _ => .ok ()) (fun _ _ => .ok ()) (fun _ => ())
    (fun _ => .ok ⟨"t", "c", "p", "v", []⟩) "issuer-did" (sampleRrd 100) 1 "later" 42
    () () ⟨"t", "c", "p", "v", []⟩ rfl rfl rfl

/-- C3 counterexample: when the resolver returns an empty list, the
`get_document!` expansion `resolve_result[0]` panics with an index
out-of-bounds instead of returning an error result. -/
theorem get_document_empty_list_panics :
    get_document String (fun s => .ok s) "schema" [] =
      .panicked "index out of bounds: the len is 0 but the index is 0" := rfl

/-- C3 (amended): an orchestrator DID resolution takes element 0 of the
resolver's list as the document when the list is non-empty; a `None` first
element yields the could-not-get error result and a parse failure yields a
parse error result, but an empty resolver list causes an index
out-of-bounds panic, not an error result. -/
theorem get_document_spec (α : Type) (parse : String → Except String α)
    (type_name : String) :
    (get_document α parse type_name [] =
      .panicked "index out of bounds: the len is 0 but the index is 0") ∧
    (∀ rest, get_document α parse type_name (none :: rest) =
      .err ("could not get " ++ type_name ++ " did document")) ∧
    (∀ s rest v, parse s = .ok v →
      get_document α parse type_name (some s :: rest) = .ok v) ∧
    (∀ s rest e, parse s = .error e →
      get_document α parse type_name (some s :: rest) =
        .err (e ++ " when parsing " ++ type_name ++ " " ++ s)) := by
  refine ⟨rfl, fun rest => rfl, ?_, ?_⟩
  · intro s rest v h
    unfold get_document
    dsimp only
    rw [h]
  · intro s rest e h
    unfold get_document
    dsimp only
    rw [h]

theorem get_document_spec_witness :
    get_document String (fun s => .ok s) "schema" [some "doc-json"] = .ok "doc-json" :=
  (get_document_spec String (fun s => .ok s) "schema").2.2.1 "doc-json" [] "doc-json" rfl

/-- C10: a document whose top-level "proof" member is absent or null is
accepted by `check_assertion_proof` for any expected signer address
(crypto_utils.rs lines 122-125). -/
theorem check_assertion_proof_no_proof_ok
    (sha256 : List Char → List Nat) (keccak256 : List Nat → List Nat)
    (recoverKey : List Nat → List Nat → Nat → Except String (List Nat))
    (utf8Decode : List Nat → Except String String)
    (parseJson : String → Except String Json)
    (rawDocOf : String → Except String String)
    (vc_document signer_address : String)
    (fields : List (String × Json))
    (hparse : parseJson vc_document = .ok (Json.obj fields))
    (hproof : lookupKey Json "proof" fields = none ∨
      lookupKey Json "proof" fields = some Json.null) :
    check_assertion_proof sha256 keccak256 recoverKey utf8Decode parseJson rawDocOf
      vc_document signer_address = .ok () := by
  unfold check_assertion_proof
  rw [hparse]
  have hnull : (jsonIndex (Json.obj fields) "proof").isNull = true := by
    rcases hproof with h | h <;> simp [jsonIndex, h, Json.isNull]
  simp [hnull]

theorem check_assertion_proof_no_proof_ok_witness :
    check_assertion_proof (fun _ => []) (fun _ => []) (fun _ _ _ => .error "no")
      (fun _ => .error "no") (fun _ => .ok (Json.obj [("id", Json.str "x")]))
      (fun _ => .error "no") "vc-doc" "0xabc" = .ok () :=
  check_assertion_proof_no_proof_ok (fun _ => []) (fun _ => []) (fun _ _ _ => .error "no")
    (fun _ => .error "no") (fun _ => .ok (Json.obj [("id", Json.str "x")]))
    (fun _ => .error "no") "vc-doc" "0xabc" [("id", Json.str "x")] rfl (Or.inl rfl)

/-! ### Segment structure lemmas -/

theorem b64Char_ne_pad (n : Nat) : b64Char n ≠ '=' := fun h =>
  eq_not_mem_alphabet (h ▸ b64Char_mem_alphabet n)

theorem encodeGroups_decomp (bs : List Nat) :
    ∃ core pads, encodeGroups bs = core ++ pads ∧ '=' ∉ core ∧
      (pads = [] ∨ pads = ['='] ∨ pads = ['=', '=']) := by
  induction bs using encodeGroups.induct with
  | case1 b1 b2 b3 rest ih =>
    obtain ⟨core, pads, h, hc, hp⟩ := ih
    refine ⟨b64Char (b1 / 4) :: b64Char (b1 % 4 * 16 + b2 / 16) ::
      b64Char (b2 % 16 * 4 + b3 / 64) :: b64Char (b3 % 64) :: core, pads, ?_, ?_, hp⟩
    · rw [encodeGroups, h]
      rfl
    · intro hmem
      simp only [List.mem_cons] at hmem
      rcases hmem with h1 | h1 | h1 | h1 | h1
      · exact b64Char_ne_pad _ h1.symm
      · exact b64Char_ne_pad _ h1.symm
      · exact b64Char_ne_pad _ h1.symm
      · exact b64Char_ne_pad _ h1.symm
      · exact hc h1
  | case2 b1 b2 =>
    refine ⟨[b64Char (b1 / 4), b64Char (b1 % 4 * 16 + b2 / 16), b64Char (b2 % 16 * 4)],
      ['='], by rw [encodeGroups]; rfl, ?_, by simp⟩
    intro hmem
    simp only [List.mem_cons, List.not_mem_nil, or_false] at hmem
    rcases hmem with h1 | h1 | h1
    · exact b64Char_ne_pad _ h1.symm
    · exact b64Char_ne_pad _ h1.symm
    · exact b64Char_ne_pad _ h1.symm
  | case3 b1 =>
    refine ⟨[b64Char (b1 / 4), b64Char (b1 % 4 * 16)], ['=', '='],
      by rw [encodeGroups]; rfl, ?_, by simp⟩
    intro hmem
    simp only [List.mem_cons, List.not_mem_nil, or_false] at hmem
    rcases hmem with h1 | h1
    · exact b64Char_ne_pad _ h1.symm
    · exact b64Char_ne_pad _ h1.symm
  | case4 => exact ⟨[], [], rfl, by simp, by simp⟩

theorem dropWhile_all_pads (m : List Char) :
    ∀ (l : List Char), (∀ c ∈ l, c = '=') →
      List.dropWhile (fun x => x = '=') (l ++ m) =
      List.dropWhile (fun x => x = '=') m := by
  intro l
  induction l with
  | nil => intro _; rfl
  | cons c t ih =>
    intro h
    have hc : c = '=' := h c (by simp)
    rw [List.cons_append, List.dropWhile_cons]
    simp only [hc, decide_True, if_true]
    exact ih (fun x hx => h x (by simp [hx]))

theorem dropWhile_no_pad (core : List Char) (hcore : '=' ∉ core) :
    List.dropWhile (fun x => x = '=') core.reverse = core.reverse := by
  cases hrev : core.reverse with
  | nil => rfl
  | cons c t =>
    have hc : c ∈ core := by
      have hm : c ∈ core.reverse := by rw [hrev]; simp
      simpa using hm
    have hcne : ¬(c = '=') := fun h => hcore (h ▸ hc)
    rw [List.dropWhile_cons]
    simp [hcne]

theorem trimEnd_eq_core (core pads : List Char) (hcore : '=' ∉ core)
    (hpads : ∀ c ∈ pads, c = '=') : trimEnd '=' (core ++ pads) = core := by
  unfold trimEnd
  rw [List.reverse_append]
  rw [dropWhile_all_pads core.reverse pads.reverse
    (fun c hc => hpads c (by simpa using hc))]
  rw [dropWhile_no_pad core hcore, List.reverse_reverse]

theorem encodeGroups_trimEnd (bs : List Nat) :
    ∃ pads, encodeGroups bs = trimEnd '=' (encodeGroups bs) ++ pads ∧
      (∀ c ∈ pads, c = '=') ∧ '=' ∉ trimEnd '=' (encodeGroups bs) := by
  obtain ⟨core, pads, henc, hcore, hpads⟩ := encodeGroups_decomp bs
  have hpads2 : ∀ c ∈ pads, c = '=' := by
    rcases hpads with h | h | h <;> subst h <;> intro c hc <;> simp at hc <;> simp [hc]
  have htrim : trimEnd '=' (encodeGroups bs) = core := by
    rw [henc]
    exact trimEnd_eq_core core pads hcore hpads2
  rw [htrim]
  exact ⟨pads, henc, hpads2, hcore⟩

theorem trimEnd_no_dot (bs : List Nat) : '.' ∉ trimEnd '=' (encodeGroups bs) := by
  obtain ⟨pads, henc, hpads, hne⟩ := encodeGroups_trimEnd bs
  intro hdot
  have hmem : '.' ∈ encodeGroups bs := by
    rw [henc]
    exact List.mem_append_left _ hdot
  exact encodeGroups_no_dot bs hmem

theorem decodeSigSegment_trimEnd (bs : List Nat) (h : ∀ b ∈ bs, b < 256) :
    decodeSigSegment (trimEnd '=' (encodeGroups bs)) = some bs := by
  obtain ⟨pads, henc, hpads, _⟩ := encodeGroups_trimEnd bs
  exact decodeSigSegment_strip bs h _ pads henc hpads

theorem splitDots_no_dot (a : List Char) (ha : '.' ∉ a) : splitDots a = [a] := by
  induction a with
  | nil => rfl
  | cons c t ih =>
    have hc : ¬(c = '.') := fun h => ha (by simp [h])
    have ht : '.' ∉ t := fun h => ha (by simp [h])
    rw [splitDots, if_neg hc, ih ht]

theorem splitDots_append (a : List Char) (ha : '.' ∉ a) (rest : List Char) :
    splitDots (a ++ '.' :: rest) = a :: splitDots rest := by
  induction a with
  | nil =>
    rw [List.nil_append, splitDots, if_pos rfl]
  | cons c t ih =>
    have hc : ¬(c = '.') := fun h => ha (by simp [h])
    have ht : '.' ∉ t := fun h => ha (by simp [h])
    rw [List.cons_append, splitDots, if_neg hc, ih ht]

/-- C2: a JWS segment is accepted whenever it is a valid padded base64url
encoding with up to all of its trailing pad characters stripped (0, 1, 2 or
3 missing `=` are retried), decoding fails exactly when no amount of
re-appended padding (up to three) makes the segment decode, and the payload
decoder and the signature decoder agree on every input — the extra retry
with three pads on the payload side can never succeed, since valid base64url
carries at most two pads. -/
theorem jws_padding_tolerance :
    (∀ s : List Char, decodeDataSegment s = decodeSigSegment s) ∧
    (∀ (bytes : List Nat), (∀ b ∈ bytes, b < 256) →
      ∀ (s p : List Char), encodeGroups bytes = s ++ p → (∀ c ∈ p, c = '=') →
        decodeDataSegment s = some bytes ∧ decodeSigSegment s = some bytes) ∧
    (∀ s : List Char, decodeDataSegment s = none ↔
      ∀ k, k ≤ 3 → base64urlDecode (s ++ List.replicate k '=') = none) := by
  refine ⟨decodeDataSegment_eq_decodeSigSegment, ?_, ?_⟩
  · intro bytes h s p henc hpad
    exact ⟨decodeDataSegment_strip bytes h s p henc hpad,
           decodeSigSegment_strip bytes h s p henc hpad⟩
  · intro s
    constructor
    · intro hnone
      rw [decodeDataSegment] at hnone
      cases h0 : base64urlDecode s with
      | some d => rw [h0] at hnone; exact absurd hnone (by simp)
      | none =>
        rw [h0] at hnone
        cases h1 : base64urlDecode (s ++ ['=']) with
        | some d => rw [h1] at hnone; exact absurd hnone (by simp)
        | none =>
          rw [h1] at hnone
          cases h2 : base64urlDecode (s ++ ['=', '=']) with
          | some d => rw [h2] at hnone; exact absurd hnone (by simp)
          | none =>
            rw [h2] at hnone
            intro k hk
            rcases k with _ | _ | _ | _ | k
            · simpa using h0
            · simpa using h1
            · simpa using h2
            · simpa using hnone
            · omega
    · intro hall
      have h0 := hall 0 (by omega)
      have h1 := hall 1 (by omega)
      have h2 := hall 2 (by omega)
      have h3 := hall 3 (by omega)
      simp only [List.replicate, List.append_nil] at h0 h1 h2 h3
      rw [decodeDataSegment, h0, h1, h2]
      exact h3

theorem jws_padding_tolerance_witness :
    decodeDataSegment ['A', 'A'] = some [0] ∧ decodeSigSegment ['A', 'A'] = some [0] :=
  jws_padding_tolerance.2.1 [0] (by decide) ['A', 'A'] ['=', '='] (by decide) (by decide)

/-- C7: the JWS produced by `create_assertion_proof` is
`header_b64 "." payload_b64 "." sig_b64` — splitting on dots recovers
exactly these three segments — where the header segment is the unpadded
base64url of the literal bytes `\x7b"typ":"JWT","alg":"ES256K-R"\x7d`, no
segment carries a trailing pad character, the signer is invoked on
`"0x" ++ hex(SHA-256(header_b64 "." payload_b64))`, and the final segment
is the unpadded base64url of the returned 65-byte signature, from which the
signature bytes are recoverable. -/
theorem create_assertion_proof_jws_correct
    (serializeJson : Json → List Nat) (sha256 : List Char → List Nat)
    (signMessage : String → String → List Nat × List Nat)
    (document_to_sign : Json)
    (verification_method issuer private_key now : String)
    (h65 : (signedSig serializeJson sha256 signMessage document_to_sign issuer
      private_key now).length = 65)
    (hbytes : ∀ b ∈ signedSig serializeJson sha256 signMessage document_to_sign issuer
      private_key now, b < 256) :
    ((create_assertion_proof serializeJson sha256 signMessage document_to_sign
        verification_method issuer private_key now).jws =
      headerB64 ++ '.' :: payloadSegment serializeJson document_to_sign issuer now ++
        '.' :: trimEnd '=' (encodeGroups (signedSig serializeJson sha256 signMessage
          document_to_sign issuer private_key now))) ∧
    headerB64 = "eyJ0eXAiOiJKV1QiLCJhbGciOiJFUzI1NkstUiJ9".data ∧
    '=' ∉ headerB64 ∧
    '=' ∉ payloadSegment serializeJson document_to_sign issuer now ∧
    '=' ∉ trimEnd '=' (encodeGroups (signedSig serializeJson sha256 signMessage
      document_to_sign issuer private_key now)) ∧
    splitDots (create_assertion_proof serializeJson sha256 signMessage document_to_sign
        verification_method issuer private_key now).jws =
      [headerB64, payloadSegment serializeJson document_to_sign issuer now,
       trimEnd '=' (encodeGroups (signedSig serializeJson sha256 signMessage
         document_to_sign issuer private_key now))] ∧
    decodeSigSegment (trimEnd '=' (encodeGroups (signedSig serializeJson sha256
        signMessage document_to_sign issuer private_key now))) =
      some (signedSig serializeJson sha256 signMessage document_to_sign issuer
        private_key now) ∧
    (signedSig serializeJson sha256 signMessage document_to_sign issuer
      private_key now).length = 65 := by
  have hjws : (create_assertion_proof serializeJson sha256 signMessage document_to_sign
      verification_method issuer private_key now).jws =
      headerB64 ++ '.' :: payloadSegment serializeJson document_to_sign issuer now ++
        '.' :: trimEnd '=' (encodeGroups (signedSig serializeJson sha256 signMessage
          document_to_sign issuer private_key now)) := by
    show (headerB64 ++ '.' :: payloadSegment serializeJson document_to_sign issuer now) ++
        '.' :: trimEnd '=' (encodeGroups (signedSig serializeJson sha256 signMessage
          document_to_sign issuer private_key now)) = _
    rw [List.append_assoc, List.cons_append]
  have hph : '=' ∉ headerB64 := by
    obtain ⟨p, _, _, hne⟩ := encodeGroups_trimEnd (headerStr.map Char.toNat)
    exact hne
  have hpp : '=' ∉ payloadSegment serializeJson document_to_sign issuer now := by
    obtain ⟨p, _, _, hne⟩ := encodeGroups_trimEnd (serializeJson
      (Json.obj [("doc", document_to_sign), ("iat", Json.str now), ("iss", Json.str issuer)]))
    exact hne
  have hps : '=' ∉ trimEnd '=' (encodeGroups (signedSig serializeJson sha256 signMessage
      document_to_sign issuer private_key now)) := by
    obtain ⟨p, _, _, hne⟩ := encodeGroups_trimEnd (signedSig serializeJson sha256
      signMessage document_to_sign issuer private_key now)
    exact hne
  have hdh : '.' ∉ headerB64 := trimEnd_no_dot _
  have hdp : '.' ∉ payloadSegment serializeJson document_to_sign issuer now :=
    trimEnd_no_dot _
  have hds : '.' ∉ trimEnd '=' (encodeGroups (signedSig serializeJson sha256 signMessage
      document_to_sign issuer private_key now)) := trimEnd_no_dot _
  refine ⟨hjws, by decide, hph, hpp, hps, ?_, ?_, h65⟩
  · rw [hjws]
    simp only [List.cons_append, List.append_assoc]
    rw [splitDots_append _ hdh, splitDots_append _ hdp, splitDots_no_dot _ hds]
  · exact decodeSigSegment_trimEnd _ hbytes

theorem create_assertion_proof_jws_correct_witness :
    decodeSigSegment (trimEnd '=' (encodeGroups (signedSig (fun _ => []) (fun _ => [])
        (fun _ _ => (List.replicate 65 0, [])) Json.null "iss" "sk" "now"))) =
      some (signedSig (fun _ => []) (fun _ => [])
        (fun _ _ => (List.replicate 65 0, [])) Json.null "iss" "sk" "now") :=
  (create_assertion_proof_jws_correct (fun _ => []) (fun _ => [])
    (fun _ _ => (List.replicate 65 0, [])) Json.null "vm" "iss" "sk" "now"
    (by rfl) (by decide)).2.2.2.2.2.2.1

/-- C8: `recover_address_and_data` normalizes the recovery byte `v` by
subtracting 27 exactly when `v ≥ 27` (using it unchanged when `v < 27`),
passes the normalized id to secp256k1 recovery, and derives the signer
address as the lowercase hex of bytes 12..32 of Keccak-256 over bytes 1..65
of the recovered uncompressed public key; `check_assertion_proof` returns
an error whenever the embedded `doc` differs structurally from the presented
document without its proof, or the `0x`-prefixed recovered address differs
from the expected signer address. -/
theorem recover_and_check_verification
    (sha256 : List Char → List Nat) (keccak256 : List Nat → List Nat)
    (recoverKey : List Nat → List Nat → Nat → Except String (List Nat))
    (utf8Decode : List Nat → Except String String)
    (header data : List Char) (sigBytes dataBytes : List Nat) (dataStr : String)
    (hh : '.' ∉ header) (hd : '.' ∉ data)
    (hdata : decodeDataSegment data = some dataBytes)
    (hutf8 : utf8Decode dataBytes = .ok dataStr)
    (hsha : (sha256 (header ++ '.' :: data)).length = 32)
    (h65 : sigBytes.length = 65) (hbytes : ∀ b ∈ sigBytes, b < 256)
    (hnorm : (if sigBytes.getD 64 0 < 27 then sigBytes.getD 64 0
      else sigBytes.getD 64 0 - 27) < 4) :
    (recover_address_and_data sha256 keccak256 recoverKey utf8Decode
        (header ++ '.' :: data ++ '.' :: trimEnd '=' (encodeGroups sigBytes)) =
      match recoverKey (sha256 (header ++ '.' :: data)) (sigBytes.take 64)
          (if sigBytes.getD 64 0 < 27 then sigBytes.getD 64 0
           else sigBytes.getD 64 0 - 27) with
      | .error e => .err e
      | .ok recovered_key =>
        .ok (hexEncode (((keccak256 ((recovered_key.drop 1).take 64)).drop 12).take 20),
          dataStr)) ∧
    (∀ (parseJson : String → Except String Json) (rawDocOf : String → Except String String)
      (vcDoc signer_address : String) (vcFields : List (String × Json))
      (proofJson : Json) (vcRemaining : List (String × Json)) (jws : String)
      (addr : String) (payload : String) (docText : String)
      (docFields : List (String × Json)),
      parseJson vcDoc = .ok (Json.obj vcFields) →
      (jsonIndex (Json.obj vcFields) "proof").isNull = false →
      removeField "proof" vcFields = some (proofJson, vcRemaining) →
      (jsonIndex proofJson "jws").asStr = some jws →
      recover_address_and_data sha256 keccak256 recoverKey utf8Decode jws.data =
        .ok (addr, payload) →
      rawDocOf payload = .ok docText →
      parseJson docText = .ok (Json.obj docFields) →
      ((jsonFieldsEq vcRemaining docFields = false →
        check_assertion_proof sha256 keccak256 recoverKey utf8Decode parseJson rawDocOf
          vcDoc signer_address =
          .err "recovered VC document and given VC document do not match") ∧
       (jsonFieldsEq vcRemaining docFields = true → ("0x" ++ addr) ≠ signer_address →
        check_assertion_proof sha256 keccak256 recoverKey utf8Decode parseJson rawDocOf
          vcDoc signer_address =
          .err "recovered and signing given address do not match"))) := by
  constructor
  · have hsplit : splitDots (header ++ '.' :: data ++ '.' ::
        trimEnd '=' (encodeGroups sigBytes)) =
        [header, data, trimEnd '=' (encodeGroups sigBytes)] := by
      simp only [List.cons_append, List.append_assoc]
      rw [splitDots_append _ hh, splitDots_append _ hd,
        splitDots_no_dot _ (trimEnd_no_dot sigBytes)]
    unfold recover_address_and_data
    rw [hsplit]
    dsimp only
    rw [hdata]
    dsimp only
    rw [hutf8]
    dsimp only
    rw [decodeSigSegment_trimEnd sigBytes hbytes]
    dsimp only
    rw [if_pos hsha, h65]
    rw [if_neg (by omega : ¬(65 < 65))]
    rw [if_pos hnorm]
  · intro parseJson rawDocOf vcDoc signer_address vcFields proofJson vcRemaining jws
      addr payload docText docFields hparse hnotnull hremove hjws hrec hraw hparse2
    constructor
    · intro hfe
      unfold check_assertion_proof
      rw [hparse]
      dsimp only
      rw [hnotnull]
      simp only [Bool.false_eq_true, if_false]
      rw [hremove]
      dsimp only
      rw [hjws]
      dsimp only
      rw [hrec]
      dsimp only
      rw [hraw]
      dsimp only
      rw [hparse2]
      dsimp only
      rw [hfe]
      simp
    · intro hfe haddr
      unfold check_assertion_proof
      rw [hparse]
      dsimp only
      rw [hnotnull]
      simp only [Bool.false_eq_true, if_false]
      rw [hremove]
      dsimp only
      rw [hjws]
      dsimp only
      rw [hrec]
      dsimp only
      rw [hraw]
      dsimp only
      rw [hparse2]
      dsimp only
      rw [hfe]
      simp only [if_true]
      rw [if_neg haddr]

theorem recover_and_check_verification_witness :
    recover_address_and_data (fun _ => List.range 32) (fun _ => List.range 32)
      (fun _ _ _ => .ok (List.range 65)) (fun _ => .ok "payload")
      (['h'] ++ '.' :: encodeGroups [1, 2, 3] ++ '.' ::
        trimEnd '=' (encodeGroups (List.replicate 64 0 ++ [27]))) =
      .ok (hexEncode (((List.range 32).drop 12).take 20), "payload") :=
  (recover_and_check_verification (fun _ => List.range 32) (fun _ => List.range 32)
    (fun _ _ _ => .ok (List.range 65)) (fun _ => .ok "payload")
    ['h'] (encodeGroups [1, 2, 3]) (List.replicate 64 0 ++ [27]) [1, 2, 3] "payload"
    (by decide) (by decide) (by rfl) rfl rfl (by rfl) (by decide) (by decide)).1

end VadeEvanCl
